import Mathlib

/-!
Verification development for the rack-manager firmware repository.

The Rust sources are shallowly embedded: bytes are `Nat` (values < 256 in
every reachable state), byte buffers are `List Nat`, fallible code returns a
three-valued result (`Res`) distinguishing recoverable errors from panics
(`unwrap`, `todo!`, out-of-bounds indexing), and the stateful runtime pieces
(timer wheel, executor, queue) are explicit state-passing functions.
-/

set_option maxRecDepth 8192

namespace Rack

/-- Result of running a piece of Rust code that may return a recoverable
error (`Result::Err`) or panic (`unwrap`, `expect`, `todo!`, slice index out
of bounds). -/
inductive Res (ε α : Type) where
  | panic : Res ε α
  | err : ε → Res ε α
  | ok : α → Res ε α
deriving DecidableEq

/-- Validity check mirroring `core::str::from_utf8` (RFC 3629 table);
`traits.rs` calls it with `.expect("")`, so an invalid name panics. -/
def contB (c : Nat) : Bool := 0x80 ≤ c && c ≤ 0xBF

def isValidUtf8 : List Nat → Bool
  | [] => true
  | b :: rest =>
    if b ≤ 0x7F then isValidUtf8 rest
    else if b < 0xC2 then false
    else if b ≤ 0xDF then
      match rest with
      | c1 :: r => contB c1 && isValidUtf8 r
      | [] => false
    else if b = 0xE0 then
      match rest with
      | c1 :: c2 :: r => (0xA0 ≤ c1 && c1 ≤ 0xBF) && contB c2 && isValidUtf8 r
      | _ => false
    else if b ≤ 0xEC then
      match rest with
      | c1 :: c2 :: r => contB c1 && contB c2 && isValidUtf8 r
      | _ => false
    else if b = 0xED then
      match rest with
      | c1 :: c2 :: r => (0x80 ≤ c1 && c1 ≤ 0x9F) && contB c2 && isValidUtf8 r
      | _ => false
    else if b ≤ 0xEF then
      match rest with
      | c1 :: c2 :: r => contB c1 && contB c2 && isValidUtf8 r
      | _ => false
    else if b = 0xF0 then
      match rest with
      | c1 :: c2 :: c3 :: r =>
          (0x90 ≤ c1 && c1 ≤ 0xBF) && contB c2 && contB c3 && isValidUtf8 r
      | _ => false
    else if b ≤ 0xF3 then
      match rest with
      | c1 :: c2 :: c3 :: r => contB c1 && contB c2 && contB c3 && isValidUtf8 r
      | _ => false
    else if b = 0xF4 then
      match rest with
      | c1 :: c2 :: c3 :: r =>
          (0x80 ≤ c1 && c1 ≤ 0x8F) && contB c2 && contB c3 && isValidUtf8 r
      | _ => false
    else false

/-- Embedding of `<&str as Sendable>::serialize` (`traits.rs`): names are
their UTF-8 byte lists; the function writes a length byte (`len as u8`,
hence `% 256`) followed by the bytes, and errs when the buffer is too small.
The result is the written byte block; `cap` is the length of the target
buffer slice. -/
def strSerialize (name : List Nat) (cap : Nat) : Res Unit (List Nat) :=
  if cap < name.length + 1 then .err ()
  else .ok ((name.length % 256) :: name)

/-- Embedding of `<&str as Sendable>::deserialize` (`traits.rs`): reads the
length byte, slices (`panic` when out of range, mirroring `&buffer[1..len+1]`),
and panics on invalid UTF-8 (the `expect("")`). -/
def strDeserialize (buffer : List Nat) : Res Unit (List Nat × List Nat) :=
  match buffer with
  | [] => .panic
  | len :: rest =>
    if rest.length < len then .panic
    else if isValidUtf8 (rest.take len) then .ok (rest.take len, rest.drop len)
    else .panic

/-- Embedding of `Value` from `options.rs`. -/
inductive Value where
  | Switch (state : Bool)
  | Pwm (percent : Nat)
deriving DecidableEq

/-- Embedding of `Value::serialize` (`options.rs`): always two bytes. -/
def Value.serializeV : Value → List Nat
  | .Switch s => [0, if s then 1 else 0]
  | .Pwm p => [1, p]

/-- Embedding of `Value::deserialize` (`options.rs`), taking the two bytes of
the `[u8; 2]` argument. -/
def Value.deserializeV (b0 b1 : Nat) : Res Unit Value :=
  if b0 = 0 then .ok (.Switch (b1 = 1))
  else if b0 = 1 then .ok (.Pwm b1)
  else .err ()

/-- Embedding of `DataPoint` from `options.rs`; the name is its UTF-8 bytes. -/
structure DataPoint where
  name : List Nat
  value : Value
deriving DecidableEq

/-- Embedding of `DataPoint::serialize` (`options.rs`): name block, then an
explicit `buffer.len() < 2` check, then the two value bytes. -/
def DataPoint.serializeDP (dp : DataPoint) (cap : Nat) : Res Unit (List Nat) :=
  match strSerialize dp.name cap with
  | .panic => .panic
  | .err _ => .err ()
  | .ok w =>
    if cap - w.length < 2 then .err ()
    else .ok (w ++ dp.value.serializeV)

/-- Embedding of `DataPoint::deserialize` (`options.rs`): name, then
`buffer[0..2]` (panics when fewer than 2 bytes remain), then the value. -/
def DataPoint.deserializeDP (buffer : List Nat) :
    Res Unit (DataPoint × List Nat) :=
  match strDeserialize buffer with
  | .panic => .panic
  | .err _ => .err ()
  | .ok (name, rest) =>
    match rest with
    | b0 :: b1 :: r2 =>
      match Value.deserializeV b0 b1 with
      | .ok v => .ok (⟨name, v⟩, r2)
      | _ => .err ()
    | _ => .panic

/-- Embedding of `ValueType` from `options.rs`. -/
inductive ValueType where
  | Switch
  | Pwm
deriving DecidableEq

/-- Embedding of `ConfigOption` from `options.rs`. -/
structure ConfigOption where
  name : List Nat
  ty : ValueType
deriving DecidableEq

/-- Embedding of `ConfigOption::serialize` (`options.rs`): name block then
`rest[0] = tag`, which panics when no byte remains (no length check in the
source). -/
def ConfigOption.serializeCO (co : ConfigOption) (cap : Nat) :
    Res Unit (List Nat) :=
  match strSerialize co.name cap with
  | .panic => .panic
  | .err _ => .err ()
  | .ok w =>
    if cap - w.length = 0 then .panic
    else .ok (w ++ [match co.ty with | .Switch => 0 | .Pwm => 1])

/-- Embedding of `ConfigOption::deserialize` (`options.rs`): `rest[0]`
panics on an empty rest; an unknown tag hits `todo!()`, i.e. panics. -/
def ConfigOption.deserializeCO (buffer : List Nat) :
    Res Unit (ConfigOption × List Nat) :=
  match strDeserialize buffer with
  | .panic => .panic
  | .err _ => .err ()
  | .ok (name, rest) =>
    match rest with
    | t :: r2 =>
      if t = 0 then .ok (⟨name, .Switch⟩, r2)
      else if t = 1 then .ok (⟨name, .Pwm⟩, r2)
      else .panic
    | [] => .panic

/-- Embedding of `OptionsIter` from `options.rs`: either a parsed wire list
(`Received`) or a borrowed slice with a cursor (`Fixed`). -/
inductive OptionsIter (α : Type) where
  | Received (buffer : List Nat) (length : Nat)
  | Fixed (data : List α) (index : Nat)
deriving DecidableEq

/-- Serialization of the elements of a `Fixed` list: each element is written
into the remaining buffer (`options.rs`, `OptionsIter::serialize`, `Fixed`
arm); element errors propagate (`InnerError`), element panics propagate. -/
def optsSerItems (serElem : α → Nat → Res Unit (List Nat)) :
    List α → Nat → Res Unit (List Nat)
  | [], _ => .ok []
  | x :: xs, cap =>
    match serElem x cap with
    | .panic => .panic
    | .err _ => .err ()
    | .ok w =>
      match optsSerItems serElem xs (cap - w.length) with
      | .panic => .panic
      | .err _ => .err ()
      | .ok ws => .ok (w ++ ws)

/-- Embedding of `OptionsIter::serialize` (`options.rs`): errs on an empty
buffer; `Fixed` writes the count byte then the elements; `Received` writes
the count byte then copies its whole buffer (`copy_from_slice` panics when
the target is too small). -/
def optsSerialize (serElem : α → Nat → Res Unit (List Nat))
    (it : OptionsIter α) (cap : Nat) : Res Unit (List Nat) :=
  if cap = 0 then .err ()
  else
    match it with
    | .Fixed data _ =>
      match optsSerItems serElem data (cap - 1) with
      | .panic => .panic
      | .err _ => .err ()
      | .ok ws => .ok ((data.length % 256) :: ws)
    | .Received rbuf len =>
      if cap < rbuf.length + 1 then .panic
      else .ok ((len % 256) :: rbuf)

/-- Deserialization loop of `OptionsIter::deserialize` (`options.rs`): runs
the element deserializer `n` times, returning the remaining buffer. -/
def optsDeLoop (deElem : List Nat → Res Unit (α × List Nat)) :
    Nat → List Nat → Res Unit (List Nat)
  | 0, rest => .ok rest
  | n + 1, rest =>
    match deElem rest with
    | .panic => .panic
    | .err _ => .err ()
    | .ok (_, tmp) => optsDeLoop deElem n tmp

/-- Embedding of `OptionsIter::deserialize` (`options.rs`): errs on an empty
buffer (`EmptyBuffer`), reads the count byte, walks the elements, and builds
a `Received` iterator over exactly the consumed bytes. -/
def optsDeserialize (deElem : List Nat → Res Unit (α × List Nat))
    (buffer : List Nat) : Res Unit (OptionsIter α × List Nat) :=
  match buffer with
  | [] => .err ()
  | items :: rest0 =>
    match optsDeLoop deElem items rest0 with
    | .panic => .panic
    | .err _ => .err ()
    | .ok rest =>
      .ok (.Received (rest0.take (rest0.length - rest.length)) items, rest)

/-- Items yielded by an `OptionsIter` (`options.rs`, the `Iterator` impl):
`Fixed` yields the slice elements from the cursor on; `Received`
deserializes up to `length` elements and stops at the first failure
(`.ok()?`). -/
def collectItems (deElem : List Nat → Res Unit (α × List Nat)) :
    Nat → List Nat → List α
  | 0, _ => []
  | n + 1, buf =>
    match deElem buf with
    | .ok (x, r) => x :: collectItems deElem n r
    | _ => []

def optsItems (deElem : List Nat → Res Unit (α × List Nat)) :
    OptionsIter α → List α
  | .Fixed data i => data.drop i
  | .Received buf n => collectItems deElem n buf

/-- Embedding of `ReceiverID` from `packet.rs`. -/
inductive ReceiverID where
  | Controller
  | Everyone
  | ID (n : Nat)
deriving DecidableEq

/-- Embedding of `From<u8> for ReceiverID` (`packet.rs`). -/
def ReceiverID.ofByte (b : Nat) : ReceiverID :=
  if b = 0 then .Controller else if b = 255 then .Everyone else .ID b

/-- Embedding of `From<&ReceiverID> for u8` (`packet.rs`). -/
def ReceiverID.toByte : ReceiverID → Nat
  | .Controller => 0
  | .Everyone => 255
  | .ID n => n

/-- Embedding of `PacketData` from `packet.rs`. -/
inductive PacketData where
  | InitProbe
  | InitProbeResponse (status : Bool) (id : Option Nat)
  | Init (id : Nat)
  | Acknowledge
  | Error
  | Restart
  | Configure (option : DataPoint)
  | Metrics
  | MetricsResponse (metrics : OptionsIter DataPoint)
  | ConfigureOptions
  | ConfigureOptionsResponse (options : OptionsIter ConfigOption)
deriving DecidableEq

/-- Embedding of `PacketDataParseError` from `packet.rs`. -/
inductive PacketDataParseError where
  | UnknownID (n : Nat)
deriving DecidableEq

/-- Embedding of `PacketData::parse` (`packet.rs`). The argument is the
253-byte payload area (`[u8; 253]` in the source, so `getD` at indices
0..2 mirrors total array indexing). Discriminator 4 is `todo!`, hence
panics; the `unwrap`s under discriminators 6, 8 and 10 turn element errors
into panics. -/
def PacketData.parse (value : List Nat) : Res PacketDataParseError PacketData :=
  let ptype := value.getD 0 0
  if ptype = 0 then .ok .InitProbe
  else if ptype = 1 then
    let status := value.getD 1 0 ≠ 0
    .ok (.InitProbeResponse status (if status then some (value.getD 2 0) else none))
  else if ptype = 2 then .ok (.Init (value.getD 1 0))
  else if ptype = 3 then .ok .Acknowledge
  else if ptype = 4 then .panic
  else if ptype = 5 then .ok .Restart
  else if ptype = 6 then
    match strDeserialize (value.drop 1) with
    | .ok (name, rest) =>
      match rest with
      | b0 :: b1 :: _ =>
        (match Value.deserializeV b0 b1 with
         | .ok v => .ok (.Configure ⟨name, v⟩)
         | _ => .panic)
      | _ => .panic
    | _ => .panic
  else if ptype = 7 then .ok .Metrics
  else if ptype = 8 then
    match optsDeserialize DataPoint.deserializeDP (value.drop 1) with
    | .ok (metrics, _) => .ok (.MetricsResponse metrics)
    | _ => .panic
  else if ptype = 9 then .ok .ConfigureOptions
  else if ptype = 10 then
    match optsDeserialize ConfigOption.deserializeCO (value.drop 1) with
    | .ok (options, _) => .ok (.ConfigureOptionsResponse options)
    | _ => .panic
  else .err (.UnknownID ptype)

/-- Embedding of `PacketData::serialize` (`packet.rs`): the written block at
the start of the 253-byte payload buffer (`none` = panic). `Error` is
`todo!`; the `unwrap`s turn inner serialization errors into panics. -/
def PacketData.serializeD : PacketData → Option (List Nat)
  | .InitProbe => some [0]
  | .InitProbeResponse s id => some [1, if s then 1 else 0, id.getD 0]
  | .Init id => some [2, id]
  | .Acknowledge => some [3]
  | .Error => none
  | .Restart => some [5]
  | .Configure opt =>
    (match strSerialize opt.name 252 with
     | .ok w => if 252 - w.length < 2 then none
                else some (6 :: (w ++ opt.value.serializeV))
     | _ => none)
  | .Metrics => some [7]
  | .MetricsResponse m =>
    (match optsSerialize DataPoint.serializeDP m 252 with
     | .ok w => some (8 :: w)
     | _ => none)
  | .ConfigureOptions => some [9]
  | .ConfigureOptionsResponse o =>
    (match optsSerialize ConfigOption.serializeCO o 252 with
     | .ok w => some (10 :: w)
     | _ => none)

/-- Embedding of the `VERSION` constant from `protocol/src/lib.rs`. -/
def VERSION : Nat := 0

/-- Embedding of `Packet` from `packet.rs`. -/
structure Packet where
  protocol_version : Nat
  receiver : ReceiverID
  data : PacketData
deriving DecidableEq

/-- Embedding of `PacketDeserializeError` from `packet.rs`. -/
inductive PacketDeserializeError where
  | Deserialize (e : PacketDataParseError)
  | Checksum
deriving DecidableEq

/-- Embedding of `Packet::serialize` (`packet.rs`): a 256-byte frame; byte 0
is the compile-time `VERSION` (not the packet's own field), bytes 2..254 are
the payload block zero-padded to 253 bytes, byte 255 is the placeholder CRC
0. -/
def Packet.serialize (p : Packet) : Option (List Nat) :=
  (p.data.serializeD).map (fun w =>
    VERSION :: p.receiver.toByte :: (w ++ List.replicate (253 - w.length) 0) ++ [0])

/-- Embedding of `Packet::deserialize` (`packet.rs`): reads version and
receiver bytes, parses the 253-byte payload area; the CRC byte is read but
never used (validation is a `TODO` in the source). -/
def Packet.deserialize (buffer : List Nat) : Res PacketDeserializeError Packet :=
  let pv := buffer.getD 0 0
  let rawRecv := buffer.getD 1 0
  let rawData := (buffer.drop 2).take 253
  match PacketData.parse rawData with
  | .err e => .err (.Deserialize e)
  | .panic => .panic
  | .ok d => .ok ⟨pv, .ofByte rawRecv, d⟩

/-! Round-trip lemmas for the codec. -/

theorem strSerialize_ok {name : List Nat} {cap : Nat} {w : List Nat}
    (h : strSerialize name cap = .ok w) :
    w = (name.length % 256) :: name ∧ name.length + 1 ≤ cap := by
  unfold strSerialize at h
  by_cases hc : cap < name.length + 1
  · simp [hc] at h
  · simp [hc] at h
    exact ⟨h.symm, by omega⟩

theorem strRound {name : List Nat} (hv : isValidUtf8 name = true)
    (hl : name.length ≤ 255) (suffix : List Nat) :
    strDeserialize (((name.length % 256) :: name) ++ suffix) = .ok (name, suffix) := by
  have hm : name.length % 256 = name.length := Nat.mod_eq_of_lt (by omega)
  have hlen : ¬ ((name ++ suffix).length < name.length) := by
    simp [List.length_append]
  have ht : (name ++ suffix).take name.length = name := List.take_left _ _
  have hd : (name ++ suffix).drop name.length = suffix := List.drop_left _ _
  simp [strDeserialize, hm, hlen, ht, hd, hv]

theorem strDeserialize_ext {buf : List Nat} {name rest : List Nat} (ext : List Nat)
    (h : strDeserialize buf = .ok (name, rest)) :
    strDeserialize (buf ++ ext) = .ok (name, rest ++ ext) := by
  match buf with
  | [] => simp [strDeserialize] at h
  | len :: r =>
    unfold strDeserialize at h ⊢
    by_cases h1 : r.length < len
    · simp [h1] at h
    · simp only [h1, if_false] at h
      by_cases h2 : isValidUtf8 (r.take len) = true
      · simp only [h2, if_true] at h
        have h3 : ¬ ((r ++ ext).length < len) := by
          simp [List.length_append]; omega
        have h4 : (r ++ ext).take len = r.take len :=
          List.take_append_of_le_length (by omega)
        have h5 : (r ++ ext).drop len = r.drop len ++ ext :=
          List.drop_append_of_le_length (by omega)
        simp only [List.cons_append, h3, if_false, h4, h2, if_true, h5]
        simp only [Res.ok.injEq, Prod.mk.injEq] at h ⊢
        exact ⟨h.1, by rw [← h.2]⟩
      · simp [h2] at h

theorem valueSer_shape (v : Value) :
    ∃ b0 b1, v.serializeV = [b0, b1] ∧ Value.deserializeV b0 b1 = .ok v := by
  cases v with
  | Switch s =>
    refine ⟨0, if s then 1 else 0, rfl, ?_⟩
    cases s <;> simp [Value.deserializeV]
  | Pwm p => exact ⟨1, p, rfl, by simp [Value.deserializeV]⟩

theorem dpSerialize_ok {dp : DataPoint} {cap : Nat} {w : List Nat}
    (h : DataPoint.serializeDP dp cap = .ok w) :
    ∃ wn, strSerialize dp.name cap = .ok wn ∧ w = wn ++ dp.value.serializeV ∧
      wn.length + 2 ≤ cap := by
  unfold DataPoint.serializeDP at h
  rcases hs : strSerialize dp.name cap with _ | e | wn <;> rw [hs] at h <;>
    simp at h
  by_cases hc : cap - wn.length < 2
  · simp [hc] at h
  · simp [hc] at h
    have := (strSerialize_ok hs).2
    have hwl : wn.length = dp.name.length + 1 := by
      rw [(strSerialize_ok hs).1]; simp
    exact ⟨wn, rfl, h.symm, by omega⟩

theorem dpRound {dp : DataPoint} {cap : Nat} {w : List Nat}
    (hv : isValidUtf8 dp.name = true) (hl : dp.name.length ≤ 255)
    (h : DataPoint.serializeDP dp cap = .ok w) (suffix : List Nat) :
    DataPoint.deserializeDP (w ++ suffix) = .ok (dp, suffix) := by
  obtain ⟨wn, hs, hw, _⟩ := dpSerialize_ok h
  obtain ⟨b0, b1, hvs, hvd⟩ := valueSer_shape dp.value
  have hwn := (strSerialize_ok hs).1
  subst hw hwn
  rw [hvs]
  have : (((dp.name.length % 256) :: dp.name) ++ [b0, b1]) ++ suffix
      = ((dp.name.length % 256) :: dp.name) ++ (b0 :: b1 :: suffix) := by
    simp
  rw [this]
  unfold DataPoint.deserializeDP
  rw [strRound hv hl (b0 :: b1 :: suffix)]
  simp [hvd]

theorem dpDeserialize_ext {buf : List Nat} {dp : DataPoint} {rest : List Nat}
    (ext : List Nat) (h : DataPoint.deserializeDP buf = .ok (dp, rest)) :
    DataPoint.deserializeDP (buf ++ ext) = .ok (dp, rest ++ ext) := by
  unfold DataPoint.deserializeDP at h ⊢
  rcases hs : strDeserialize buf with _ | e | p <;> rw [hs] at h <;> simp at h
  obtain ⟨name, rest1⟩ := p
  rw [strDeserialize_ext ext hs]
  dsimp only at h ⊢
  rcases rest1 with _ | ⟨b0, rest2⟩
  · simp at h
  rcases rest2 with _ | ⟨b1, r2⟩
  · simp at h
  simp only [List.cons_append]
  have h2 : (match Value.deserializeV b0 b1 with
      | Res.ok v => Res.ok ((⟨name, v⟩ : DataPoint), r2)
      | _ => Res.err ()) = Res.ok (dp, rest) := h
  clear h
  rcases hv : Value.deserializeV b0 b1 with _ | e | v
  · rw [hv] at h2
    simp at h2
  · rw [hv] at h2
    simp at h2
  · rw [hv] at h2
    simp at h2
    simp
    exact ⟨h2.1, by rw [h2.2]⟩

theorem coSerialize_ok {co : ConfigOption} {cap : Nat} {w : List Nat}
    (h : ConfigOption.serializeCO co cap = .ok w) :
    ∃ wn t, strSerialize co.name cap = .ok wn ∧ w = wn ++ [t] ∧
      wn.length + 1 ≤ cap ∧
      t = (match co.ty with | .Switch => 0 | .Pwm => 1) := by
  unfold ConfigOption.serializeCO at h
  rcases hs : strSerialize co.name cap with _ | e | wn <;> rw [hs] at h <;>
    simp at h
  by_cases hc : cap - wn.length = 0
  · simp [hc] at h
  · simp [hc] at h
    have := (strSerialize_ok hs).2
    have hwl : wn.length = co.name.length + 1 := by
      rw [(strSerialize_ok hs).1]; simp
    exact ⟨wn, _, rfl, h.symm, by omega, rfl⟩

theorem coRound {co : ConfigOption} {cap : Nat} {w : List Nat}
    (hv : isValidUtf8 co.name = true) (hl : co.name.length ≤ 255)
    (h : ConfigOption.serializeCO co cap = .ok w) (suffix : List Nat) :
    ConfigOption.deserializeCO (w ++ suffix) = .ok (co, suffix) := by
  obtain ⟨wn, t, hs, hw, _, ht⟩ := coSerialize_ok h
  have hwn := (strSerialize_ok hs).1
  subst hw hwn
  rcases co with ⟨nm, ty⟩
  dsimp only at hv hl ht ⊢
  have heq : (((nm.length % 256) :: nm) ++ [t]) ++ suffix
      = ((nm.length % 256) :: nm) ++ (t :: suffix) := by simp
  rw [heq]
  unfold ConfigOption.deserializeCO
  rw [strRound hv hl (t :: suffix)]
  cases ty <;> simp at ht <;> subst ht <;> simp

theorem coDeserialize_ext {buf : List Nat} {co : ConfigOption} {rest : List Nat}
    (ext : List Nat) (h : ConfigOption.deserializeCO buf = .ok (co, rest)) :
    ConfigOption.deserializeCO (buf ++ ext) = .ok (co, rest ++ ext) := by
  unfold ConfigOption.deserializeCO at h ⊢
  rcases hs : strDeserialize buf with _ | e | p <;> rw [hs] at h <;> simp at h
  obtain ⟨name, rest1⟩ := p
  rw [strDeserialize_ext ext hs]
  dsimp only at h ⊢
  rcases rest1 with _ | ⟨t, r2⟩
  · simp at h
  simp only [List.cons_append]
  by_cases h0 : t = 0
  · simp [h0] at h ⊢
    exact ⟨h.1, by rw [h.2]⟩
  · by_cases h1 : t = 1
    · simp [h0, h1] at h ⊢
      exact ⟨h.1, by rw [h.2]⟩
    · simp [h0, h1] at h

section OptsLemmas

variable {α : Type} {serElem : α → Nat → Res Unit (List Nat)}
variable {deElem : List Nat → Res Unit (α × List Nat)} {wfE : α → Prop}

theorem optsSerItems_round
    (hround : ∀ x cap w suffix, wfE x → serElem x cap = .ok w →
      deElem (w ++ suffix) = .ok (x, suffix)) :
    ∀ (data : List α) (cap : Nat) (w : List Nat), (∀ x ∈ data, wfE x) →
      optsSerItems serElem data cap = .ok w →
      (∀ suffix, optsDeLoop deElem data.length (w ++ suffix) = .ok suffix) ∧
      (∀ suffix, collectItems deElem data.length (w ++ suffix) = data)
  | [], cap, w, _, h => by
      simp [optsSerItems] at h
      subst h
      exact ⟨fun s => by simp [optsDeLoop], fun s => by simp [collectItems]⟩
  | x :: xs, cap, w, hwf, h => by
      unfold optsSerItems at h
      rcases hx : serElem x cap with _ | e | wx <;> rw [hx] at h <;> simp at h
      rcases hxs : optsSerItems serElem xs (cap - wx.length) with _ | e | ws <;>
        rw [hxs] at h <;> simp at h
      subst h
      have IH := optsSerItems_round hround xs (cap - wx.length) ws
        (fun y hy => hwf y (List.mem_cons_of_mem _ hy)) hxs
      have hde : ∀ suffix, deElem (wx ++ (ws ++ suffix)) = .ok (x, ws ++ suffix) :=
        fun suffix => hround x cap wx (ws ++ suffix) (hwf x (List.mem_cons_self _ _)) hx
      constructor
      · intro suffix
        have heq : (wx ++ ws) ++ suffix = wx ++ (ws ++ suffix) := by simp
        rw [heq]
        simp only [List.length_cons, optsDeLoop]
        rw [hde suffix]
        exact IH.1 suffix
      · intro suffix
        have heq : (wx ++ ws) ++ suffix = wx ++ (ws ++ suffix) := by simp
        rw [heq]
        simp only [List.length_cons, collectItems]
        rw [hde suffix]
        exact congrArg (x :: ·) (IH.2 suffix)

theorem optsFixedRound
    (hround : ∀ x cap w suffix, wfE x → serElem x cap = .ok w →
      deElem (w ++ suffix) = .ok (x, suffix))
    {data : List α} {i cap : Nat} {w : List Nat}
    (hwf : ∀ x ∈ data, wfE x) (hn : data.length ≤ 255)
    (h : optsSerialize serElem (.Fixed data i) cap = .ok w) :
    (∀ suffix, optsDeserialize deElem (w ++ suffix)
        = .ok (.Received (w.drop 1) data.length, suffix)) ∧
    collectItems deElem data.length (w.drop 1) = data := by
  unfold optsSerialize at h
  by_cases hc : cap = 0
  · simp [hc] at h
  · simp only [hc, if_false] at h
    rcases hws : optsSerItems serElem data (cap - 1) with _ | e | ws <;>
      rw [hws] at h <;> simp at h
    subst h
    have hm : data.length % 256 = data.length := Nat.mod_eq_of_lt (by omega)
    have hr := optsSerItems_round hround data (cap - 1) ws hwf hws
    constructor
    · intro suffix
      simp only [List.cons_append, List.drop_succ_cons, List.drop_zero]
      rw [hm]
      simp only [optsDeserialize]
      rw [hr.1 suffix]
      have hlen : (ws ++ suffix).length - suffix.length = ws.length := by
        simp
      show Res.ok (OptionsIter.Received
          ((ws ++ suffix).take ((ws ++ suffix).length - suffix.length)) data.length, suffix)
        = Res.ok (OptionsIter.Received ws data.length, suffix)
      rw [hlen, List.take_left]
    · have := hr.2 []
      rw [List.append_nil] at this
      simpa using this

theorem optsLoop_ext
    (hextE : ∀ buf x rest ext, deElem buf = .ok (x, rest) →
      deElem (buf ++ ext) = .ok (x, rest ++ ext)) :
    ∀ (n : Nat) (buf rest ext : List Nat), optsDeLoop deElem n buf = .ok rest →
      optsDeLoop deElem n (buf ++ ext) = .ok (rest ++ ext)
  | 0, buf, rest, ext, h => by
      simp [optsDeLoop] at h ⊢
      rw [h]
  | n + 1, buf, rest, ext, h => by
      unfold optsDeLoop at h ⊢
      rcases hd : deElem buf with _ | e | p <;> rw [hd] at h <;> simp at h
      obtain ⟨x, tmp⟩ := p
      rw [hextE buf x tmp ext hd]
      exact optsLoop_ext hextE n tmp rest ext h

theorem optsReceivedRound
    (hextE : ∀ buf x rest ext, deElem buf = .ok (x, rest) →
      deElem (buf ++ ext) = .ok (x, rest ++ ext))
    {rbuf : List Nat} {n cap : Nat} {w : List Nat}
    (hd : optsDeLoop deElem n rbuf = .ok []) (hn : n ≤ 255)
    (h : optsSerialize serElem (.Received rbuf n) cap = .ok w) :
    ∀ suffix, optsDeserialize deElem (w ++ suffix) = .ok (.Received rbuf n, suffix) := by
  unfold optsSerialize at h
  by_cases hc : cap = 0
  · simp [hc] at h
  · simp only [hc, if_false] at h
    by_cases hcc : cap < rbuf.length + 1
    · simp [hcc] at h
    · simp [hcc] at h
      subst h
      have hm : n % 256 = n := Nat.mod_eq_of_lt (by omega)
      intro suffix
      simp only [List.cons_append]
      rw [hm]
      simp only [optsDeserialize]
      have hloop := optsLoop_ext hextE n rbuf [] suffix hd
      rw [List.nil_append] at hloop
      rw [hloop]
      have hlen : (rbuf ++ suffix).length - suffix.length = rbuf.length := by
        simp
      show Res.ok (OptionsIter.Received
          ((rbuf ++ suffix).take ((rbuf ++ suffix).length - suffix.length)) n, suffix)
        = Res.ok (OptionsIter.Received rbuf n, suffix)
      rw [hlen, List.take_left]

end OptsLemmas

/-- Element well-formedness used by the round-trip theorems: the name is
valid UTF-8 (it came from a Rust `&str`) and at most 255 bytes long (so the
`as u8` length cast is lossless). -/
def wfDPp (dp : DataPoint) : Prop := isValidUtf8 dp.name = true ∧ dp.name.length ≤ 255

def wfCOp (co : ConfigOption) : Prop := isValidUtf8 co.name = true ∧ co.name.length ≤ 255

theorem dpRoundE : ∀ (x : DataPoint) (cap : Nat) (w suffix : List Nat), wfDPp x →
    DataPoint.serializeDP x cap = .ok w →
    DataPoint.deserializeDP (w ++ suffix) = .ok (x, suffix) :=
  fun _ _ _ suffix hwf h => dpRound hwf.1 hwf.2 h suffix

theorem coRoundE : ∀ (x : ConfigOption) (cap : Nat) (w suffix : List Nat), wfCOp x →
    ConfigOption.serializeCO x cap = .ok w →
    ConfigOption.deserializeCO (w ++ suffix) = .ok (x, suffix) :=
  fun _ _ _ suffix hwf h => coRound hwf.1 hwf.2 h suffix

theorem dpSerialize_len {dp : DataPoint} {cap : Nat} {w : List Nat}
    (h : DataPoint.serializeDP dp cap = .ok w) : w.length ≤ cap := by
  obtain ⟨wn, hs, hw, hc⟩ := dpSerialize_ok h
  obtain ⟨b0, b1, hvs, -⟩ := valueSer_shape dp.value
  subst hw
  rw [hvs]
  simp only [List.length_append, List.length_cons, List.length_nil]
  omega

theorem coSerialize_len {co : ConfigOption} {cap : Nat} {w : List Nat}
    (h : ConfigOption.serializeCO co cap = .ok w) : w.length ≤ cap := by
  obtain ⟨wn, t, hs, hw, hc, -⟩ := coSerialize_ok h
  subst hw
  simp only [List.length_append, List.length_cons, List.length_nil]
  omega

theorem optsSerItems_len {α : Type} {serElem : α → Nat → Res Unit (List Nat)}
    (hlen : ∀ x cap w, serElem x cap = .ok w → w.length ≤ cap) :
    ∀ (data : List α) (cap : Nat) (w : List Nat),
      optsSerItems serElem data cap = .ok w → w.length ≤ cap
  | [], cap, w, h => by
      simp [optsSerItems] at h
      subst h
      simp
  | x :: xs, cap, w, h => by
      unfold optsSerItems at h
      rcases hx : serElem x cap with _ | e | wx <;> rw [hx] at h <;> simp at h
      rcases hxs : optsSerItems serElem xs (cap - wx.length) with _ | e | ws <;>
        rw [hxs] at h <;> simp at h
      subst h
      have h1 := hlen x cap wx hx
      have h2 := optsSerItems_len hlen xs (cap - wx.length) ws hxs
      simp only [List.length_append]
      omega

theorem optsSerialize_len {α : Type} {serElem : α → Nat → Res Unit (List Nat)}
    (hlen : ∀ x cap w, serElem x cap = .ok w → w.length ≤ cap)
    {it : OptionsIter α} {cap : Nat} {w : List Nat}
    (h : optsSerialize serElem it cap = .ok w) : w.length ≤ cap := by
  unfold optsSerialize at h
  by_cases hc : cap = 0
  · simp [hc] at h
  · simp only [hc, if_false] at h
    cases it with
    | Fixed data i =>
      have h2 : (match optsSerItems serElem data (cap - 1) with
          | Res.panic => (Res.panic : Res Unit (List Nat))
          | Res.err _ => Res.err ()
          | Res.ok ws => Res.ok ((data.length % 256) :: ws)) = Res.ok w := h
      clear h
      rcases hws : optsSerItems serElem data (cap - 1) with _ | e | ws <;>
        rw [hws] at h2 <;> simp at h2
      subst h2
      have := optsSerItems_len hlen data (cap - 1) ws hws
      simp only [List.length_cons]
      omega
    | Received rbuf n =>
      have h2 : (if cap < rbuf.length + 1 then (Res.panic : Res Unit (List Nat))
          else Res.ok ((n % 256) :: rbuf)) = Res.ok w := h
      clear h
      by_cases hcc : cap < rbuf.length + 1
      · simp [hcc] at h2
      · simp [hcc] at h2
        subst h2
        simp only [List.length_cons]
        omega

theorem serializeD_len {d : PacketData} {w : List Nat}
    (h : d.serializeD = some w) : w.length ≤ 253 := by
  cases d with
  | InitProbe => simp [PacketData.serializeD] at h; subst h; simp
  | InitProbeResponse s id => simp [PacketData.serializeD] at h; subst h; simp
  | Init id => simp [PacketData.serializeD] at h; subst h; simp
  | Acknowledge => simp [PacketData.serializeD] at h; subst h; simp
  | Error => simp [PacketData.serializeD] at h
  | Restart => simp [PacketData.serializeD] at h; subst h; simp
  | Metrics => simp [PacketData.serializeD] at h; subst h; simp
  | ConfigureOptions => simp [PacketData.serializeD] at h; subst h; simp
  | Configure opt =>
    simp only [PacketData.serializeD] at h
    rcases hs : strSerialize opt.name 252 with _ | e | wn <;> rw [hs] at h <;>
      simp at h
    obtain ⟨hc, h⟩ := h
    · subst h
      obtain ⟨b0, b1, hvs, -⟩ := valueSer_shape opt.value
      have h2 := (strSerialize_ok hs).2
      have hwl : wn.length = opt.name.length + 1 := by
        rw [(strSerialize_ok hs).1]; simp
      rw [hvs]
      simp only [List.length_cons, List.length_append, List.length_cons,
        List.length_nil]
      omega
  | MetricsResponse m =>
    simp only [PacketData.serializeD] at h
    rcases hs : optsSerialize DataPoint.serializeDP m 252 with _ | e | w' <;>
      rw [hs] at h <;> simp at h
    subst h
    have := optsSerialize_len (fun x cap w hx => dpSerialize_len hx) hs
    simp only [List.length_cons]
    omega
  | ConfigureOptionsResponse o =>
    simp only [PacketData.serializeD] at h
    rcases hs : optsSerialize ConfigOption.serializeCO o 252 with _ | e | w' <;>
      rw [hs] at h <;> simp at h
    subst h
    have := optsSerialize_len (fun x cap w hx => coSerialize_len hx) hs
    simp only [List.length_cons]
    omega

/-! Well-formedness (the round-trip domain) and packet equivalence. -/

/-- Name constraints met by every Rust `&str` of at most 255 bytes. -/
def wfName (name : List Nat) : Bool := isValidUtf8 name && decide (name.length ≤ 255)

def wfDP (dp : DataPoint) : Bool := wfName dp.name

def wfCO (co : ConfigOption) : Bool := wfName co.name

/-- Well-formed `DataPoint` list payloads: a freshly constructed `Fixed`
list (cursor 0, as built by `From<&[T]>`), or a `Received` list whose buffer
is the exact well-formed encoding of its element count. -/
def wfIterDP : OptionsIter DataPoint → Bool
  | .Fixed data i => data.all wfDP && decide (i = 0) && decide (data.length ≤ 255)
  | .Received rbuf n =>
      decide (n ≤ 255) &&
      decide (optsDeLoop DataPoint.deserializeDP n rbuf = .ok [])

def wfIterCO : OptionsIter ConfigOption → Bool
  | .Fixed data i => data.all wfCO && decide (i = 0) && decide (data.length ≤ 255)
  | .Received rbuf n =>
      decide (n ≤ 255) &&
      decide (optsDeLoop ConfigOption.deserializeCO n rbuf = .ok [])

/-- Well-formed payloads: every variant the codec can faithfully carry.
`Error` is excluded (its serializer is `todo!`), and the `id` field of
`InitProbeResponse` must be present exactly when `status` is set (the wire
format carries no separate presence bit). -/
def wfData : PacketData → Bool
  | .InitProbe => true
  | .InitProbeResponse s id =>
      (match id with
       | some n => s && decide (n < 256)
       | none => !s)
  | .Init id => decide (id < 256)
  | .Acknowledge => true
  | .Error => false
  | .Restart => true
  | .Configure dp => wfDP dp
  | .Metrics => true
  | .MetricsResponse m => wfIterDP m
  | .ConfigureOptions => true
  | .ConfigureOptionsResponse o => wfIterCO o

/-- Receivers with a faithful byte encoding: `ID(0)` would decode as
`Controller` and `ID(255)` as `Everyone`. -/
def receiverOk : ReceiverID → Bool
  | .Controller => true
  | .Everyone => true
  | .ID n => decide (1 ≤ n) && decide (n ≤ 254)

def wellFormedPacket (p : Packet) : Bool :=
  decide (p.protocol_version = 0) && receiverOk p.receiver && wfData p.data

/-- Payload equivalence: structural equality, except that list-carrying
variants are compared by the sequence of items their iterators yield (the
wire keeps no distinction between a `Fixed` and an equivalent `Received`
list; the repository's own tests compare lists this way). -/
def dataEquiv : PacketData → PacketData → Bool
  | .MetricsResponse m, .MetricsResponse m' =>
      decide (optsItems DataPoint.deserializeDP m
        = optsItems DataPoint.deserializeDP m')
  | .ConfigureOptionsResponse o, .ConfigureOptionsResponse o' =>
      decide (optsItems ConfigOption.deserializeCO o
        = optsItems ConfigOption.deserializeCO o')
  | d, d' => decide (d = d')

def packetEquiv (p q : Packet) : Bool :=
  decide (p.protocol_version = q.protocol_version) &&
  decide (p.receiver = q.receiver) && dataEquiv p.data q.data

theorem receiverOk_round {r : ReceiverID} (h : receiverOk r = true) :
    ReceiverID.ofByte r.toByte = r := by
  cases r with
  | Controller => simp [ReceiverID.ofByte, ReceiverID.toByte]
  | Everyone => simp [ReceiverID.ofByte, ReceiverID.toByte]
  | ID n =>
    simp [receiverOk] at h
    have h0 : n ≠ 0 := by omega
    have h255 : n ≠ 255 := by omega
    simp [ReceiverID.ofByte, ReceiverID.toByte, h0, h255]

/-- Reductions of `PacketData::parse` on the simple discriminators: only
the leading bytes matter, the rest of the 253-byte area is ignored. -/
theorem parse_b0 (rest : List Nat) : PacketData.parse (0 :: rest) = .ok .InitProbe := by
  simp [PacketData.parse]

theorem parse_b1_false (idb : Nat) (rest : List Nat) :
    PacketData.parse (1 :: 0 :: idb :: rest) = .ok (.InitProbeResponse false none) := by
  simp [PacketData.parse]

theorem parse_b1_true (idb : Nat) (rest : List Nat) :
    PacketData.parse (1 :: 1 :: idb :: rest) = .ok (.InitProbeResponse true (some idb)) := by
  simp [PacketData.parse]

theorem parse_b2 (idb : Nat) (rest : List Nat) :
    PacketData.parse (2 :: idb :: rest) = .ok (.Init idb) := by
  simp [PacketData.parse]

theorem parse_b3 (rest : List Nat) : PacketData.parse (3 :: rest) = .ok .Acknowledge := by
  simp [PacketData.parse]

theorem parse_b5 (rest : List Nat) : PacketData.parse (5 :: rest) = .ok .Restart := by
  simp [PacketData.parse]

theorem parse_b7 (rest : List Nat) : PacketData.parse (7 :: rest) = .ok .Metrics := by
  simp [PacketData.parse]

theorem parse_b9 (rest : List Nat) : PacketData.parse (9 :: rest) = .ok .ConfigureOptions := by
  simp [PacketData.parse]

/-- Reduction of `PacketData::parse` on a discriminator-6 (Configure)
payload whose tail deserializes cleanly. -/
theorem parse_six {X nm pad : List Nat} {b0 b1 : Nat} {v : Value}
    (hstr : strDeserialize X = .ok (nm, b0 :: b1 :: pad))
    (hval : Value.deserializeV b0 b1 = .ok v) :
    PacketData.parse (6 :: X) = .ok (.Configure ⟨nm, v⟩) := by
  simp [PacketData.parse, hstr, hval]

/-- Reduction of `PacketData::parse` on a discriminator-8 (MetricsResponse)
payload whose tail deserializes cleanly. -/
theorem parse_eight {X : List Nat} {it : OptionsIter DataPoint} {r : List Nat}
    (h : optsDeserialize DataPoint.deserializeDP X = .ok (it, r)) :
    PacketData.parse (8 :: X) = .ok (.MetricsResponse it) := by
  simp [PacketData.parse, h]

/-- Reduction of `PacketData::parse` on a discriminator-10
(ConfigureOptionsResponse) payload whose tail deserializes cleanly. -/
theorem parse_ten {X : List Nat} {it : OptionsIter ConfigOption} {r : List Nat}
    (h : optsDeserialize ConfigOption.deserializeCO X = .ok (it, r)) :
    PacketData.parse (10 :: X) = .ok (.ConfigureOptionsResponse it) := by
  simp [PacketData.parse, h]

/-- Payload round trip: a well-formed payload, serialized into the zero
padded 253-byte area, parses back to an equivalent payload. -/
theorem parseRound {d : PacketData} {w : List Nat} (hwf : wfData d = true)
    (h : d.serializeD = some w) :
    ∃ d', PacketData.parse (w ++ List.replicate (253 - w.length) 0) = .ok d' ∧
      dataEquiv d d' = true := by
  cases d with
  | InitProbe =>
    simp [PacketData.serializeD] at h
    subst h
    exact ⟨_, by simp only [List.cons_append, List.nil_append]; exact parse_b0 _,
      by simp [dataEquiv]⟩
  | InitProbeResponse s id =>
    simp [PacketData.serializeD] at h
    subst h
    cases s with
    | false =>
      cases id with
      | some n => simp [wfData] at hwf
      | none =>
        refine ⟨.InitProbeResponse false none, ?_, by simp [dataEquiv]⟩
        simp only [List.cons_append, List.nil_append, Option.getD_none,
          Bool.false_eq_true, if_false]
        exact parse_b1_false _ _
    | true =>
      cases id with
      | none => simp [wfData] at hwf
      | some n =>
        refine ⟨.InitProbeResponse true (some n), ?_, by simp [dataEquiv]⟩
        simp only [List.cons_append, List.nil_append, Option.getD_some, if_true]
        exact parse_b1_true _ _
  | Init id =>
    simp [PacketData.serializeD] at h
    subst h
    exact ⟨_, by simp only [List.cons_append, List.nil_append]; exact parse_b2 _ _,
      by simp [dataEquiv]⟩
  | Acknowledge =>
    simp [PacketData.serializeD] at h
    subst h
    exact ⟨_, by simp only [List.cons_append, List.nil_append]; exact parse_b3 _,
      by simp [dataEquiv]⟩
  | Error => simp [wfData] at hwf
  | Restart =>
    simp [PacketData.serializeD] at h
    subst h
    exact ⟨_, by simp only [List.cons_append, List.nil_append]; exact parse_b5 _,
      by simp [dataEquiv]⟩
  | Metrics =>
    simp [PacketData.serializeD] at h
    subst h
    exact ⟨_, by simp only [List.cons_append, List.nil_append]; exact parse_b7 _,
      by simp [dataEquiv]⟩
  | ConfigureOptions =>
    simp [PacketData.serializeD] at h
    subst h
    exact ⟨_, by simp only [List.cons_append, List.nil_append]; exact parse_b9 _,
      by simp [dataEquiv]⟩
  | Configure opt =>
    simp only [PacketData.serializeD] at h
    rcases hs : strSerialize opt.name 252 with _ | e | wn <;> rw [hs] at h <;>
      simp at h
    obtain ⟨hc, h⟩ := h
    subst h
    simp [wfData, wfDP, wfName] at hwf
    obtain ⟨b0, b1, hvs, hvd⟩ := valueSer_shape opt.value
    refine ⟨.Configure opt, ?_, by simp [dataEquiv]⟩
    have hwn := (strSerialize_ok hs).1
    subst hwn
    rw [hvs, List.cons_append, List.append_assoc]
    exact parse_six (strRound hwf.1 hwf.2 _) hvd
  | MetricsResponse m =>
    simp only [PacketData.serializeD] at h
    rcases hs : optsSerialize DataPoint.serializeDP m 252 with _ | e | w' <;>
      rw [hs] at h <;> simp at h
    subst h
    cases m with
    | Fixed data i =>
      simp [wfData, wfIterDP, wfDP, wfName, List.all_eq_true] at hwf
      have hall : ∀ x ∈ data, wfDPp x := by
        intro x hx
        have := hwf.1.1 x hx
        exact ⟨this.1, this.2⟩
      have hr := optsFixedRound dpRoundE hall hwf.2 hs
      rw [List.drop_one] at hr
      refine ⟨.MetricsResponse (.Received w'.tail data.length), ?_, ?_⟩
      · rw [List.cons_append]
        exact parse_eight (hr.1 _)
      · simp [dataEquiv, optsItems, hwf.1.2, hr.2]
    | Received rbuf n =>
      simp [wfData, wfIterDP] at hwf
      have hr := optsReceivedRound
        (fun buf x rest ext hd => dpDeserialize_ext ext hd) hwf.2 hwf.1 hs
      refine ⟨.MetricsResponse (.Received rbuf n), ?_, by simp [dataEquiv]⟩
      rw [List.cons_append]
      exact parse_eight (hr _)
  | ConfigureOptionsResponse o =>
    simp only [PacketData.serializeD] at h
    rcases hs : optsSerialize ConfigOption.serializeCO o 252 with _ | e | w' <;>
      rw [hs] at h <;> simp at h
    subst h
    cases o with
    | Fixed data i =>
      simp [wfData, wfIterCO, wfCO, wfName, List.all_eq_true] at hwf
      have hall : ∀ x ∈ data, wfCOp x := by
        intro x hx
        have := hwf.1.1 x hx
        exact ⟨this.1, this.2⟩
      have hr := optsFixedRound coRoundE hall hwf.2 hs
      rw [List.drop_one] at hr
      refine ⟨.ConfigureOptionsResponse (.Received w'.tail data.length), ?_, ?_⟩
      · rw [List.cons_append]
        exact parse_ten (hr.1 _)
      · simp [dataEquiv, optsItems, hwf.1.2, hr.2]
    | Received rbuf n =>
      simp [wfData, wfIterCO] at hwf
      have hr := optsReceivedRound
        (fun buf x rest ext hd => coDeserialize_ext ext hd) hwf.2 hwf.1 hs
      refine ⟨.ConfigureOptionsResponse (.Received rbuf n), ?_, by simp [dataEquiv]⟩
      rw [List.cons_append]
      exact parse_ten (hr _)

theorem packet_roundtrip {p : Packet} (hwf : wellFormedPacket p = true)
    (hser : (p.data.serializeD).isSome = true) :
    ∃ buf q, Packet.serialize p = some buf ∧ Packet.deserialize buf = .ok q ∧
      packetEquiv p q = true := by
  simp only [wellFormedPacket, Bool.and_eq_true, decide_eq_true_eq] at hwf
  obtain ⟨⟨hpv, hrecv⟩, hdata⟩ := hwf
  rcases hd : p.data.serializeD with _ | w
  · rw [hd] at hser
    simp at hser
  · obtain ⟨d', hparse, hequiv⟩ := parseRound hdata hd
    have hwlen := serializeD_len hd
    refine ⟨VERSION :: p.receiver.toByte ::
        ((w ++ List.replicate (253 - w.length) 0) ++ [0]),
      ⟨0, .ofByte p.receiver.toByte, d'⟩, ?_, ?_, ?_⟩
    · simp [Packet.serialize, hd]
    · have htake : ((w ++ List.replicate (253 - w.length) 0) ++ [0]).take 253
          = w ++ List.replicate (253 - w.length) 0 := by
        have hlen : (w ++ List.replicate (253 - w.length) 0).length = 253 := by
          simp
          omega
        exact List.take_left' hlen
      simp only [Packet.deserialize, VERSION, List.getD_cons_zero,
        List.getD_cons_succ, List.drop_succ_cons, List.drop_zero, htake, hparse]
    · simp [packetEquiv, hpv, receiverOk_round hrecv, hequiv]

/-- C1 counterexample: the in-domain packet with payload
`InitProbeResponse { status: true, id: None }` (protocol version 0, receiver
`Controller`, a defined variant, trivially fitting 253 bytes) serializes and
deserializes successfully, but comes back with `id = Some(0)`: byte 2 of the
payload is `id.unwrap_or(0)`, and `parse` reconstructs `Some` whenever
`status` is set, so `deserialize(serialize(p)) ≠ p`. -/
theorem C1_counterexample :
    ∃ buf, Packet.serialize ⟨0, .Controller, .InitProbeResponse true none⟩
        = some buf ∧
      Packet.deserialize buf
        = .ok ⟨0, .Controller, .InitProbeResponse true (some 0)⟩ ∧
      (⟨0, .Controller, .InitProbeResponse true (some 0)⟩ : Packet)
        ≠ ⟨0, .Controller, .InitProbeResponse true none⟩ := by
  refine ⟨_, rfl, ?_, by decide⟩
  rfl

/-- C1 (amended): for every in-domain `Packet p` — protocol_version 0,
receiver `Controller`, `Everyone` or `ID n` with `1 ≤ n ≤ 254`, payload a
defined variant other than the reserved `Error`, with the
`InitProbeResponse` id present exactly when its status is set, names valid
UTF-8 of at most 255 bytes, list iterators freshly constructed (`Fixed`
cursor 0, or `Received` over the exact encoding of their count), and the
payload fitting the 253-byte area (its serializer succeeds) —
`Packet::deserialize(Packet::serialize(p))` succeeds and returns `p` up to
list representation: equal field by field, with the list-carrying variants
`MetricsResponse` and `ConfigureOptionsResponse` compared by the sequence
of items their iterators yield. -/
theorem C1_roundtrip {p : Packet} (hwf : wellFormedPacket p = true)
    (hser : (p.data.serializeD).isSome = true) :
    ∃ buf q, Packet.serialize p = some buf ∧ Packet.deserialize buf = .ok q ∧
      packetEquiv p q = true :=
  packet_roundtrip hwf hser

/-- Witness for C1: a concrete metrics-response packet (the spec's S4
example list) is in-domain and round-trips. -/
theorem C1_roundtrip_witness :
    wellFormedPacket ⟨0, .ID 13, .MetricsResponse
        (.Fixed [⟨[116, 101, 115, 116, 105, 110, 103], .Pwm 10⟩] 0)⟩ = true ∧
    ((⟨0, .ID 13, .MetricsResponse
        (.Fixed [⟨[116, 101, 115, 116, 105, 110, 103], .Pwm 10⟩] 0)⟩ :
      Packet).data.serializeD).isSome = true ∧
    (∃ buf q, Packet.serialize ⟨0, .ID 13, .MetricsResponse
          (.Fixed [⟨[116, 101, 115, 116, 105, 110, 103], .Pwm 10⟩] 0)⟩
        = some buf ∧
      Packet.deserialize buf = .ok q ∧
      packetEquiv ⟨0, .ID 13, .MetricsResponse
          (.Fixed [⟨[116, 101, 115, 116, 105, 110, 103], .Pwm 10⟩] 0)⟩ q
        = true) :=
  ⟨by decide, by decide, C1_roundtrip (by decide) (by decide)⟩

/-- C10: the 256-byte output of `Packet::serialize` always carries the
compile-time `VERSION` (0) at byte 0 — whatever the packet's own
`protocol_version` field holds — and the placeholder CRC 0 at byte 255;
and `Packet::deserialize` never reads byte 255 (the CRC is read into an
unused variable), so its result is unchanged under any CRC byte. -/
theorem C10_header_crc :
    (∀ (p : Packet) (buf : List Nat), Packet.serialize p = some buf →
      buf.getD 0 99 = VERSION ∧ buf.getD 255 99 = 0 ∧ buf.length = 256) ∧
    (∀ (front : List Nat) (c c' : Nat), front.length = 255 →
      Packet.deserialize (front ++ [c]) = Packet.deserialize (front ++ [c'])) := by
  constructor
  · intro p buf h
    unfold Packet.serialize at h
    rcases hd : p.data.serializeD with _ | w <;> rw [hd] at h <;> simp at h
    have hwlen := serializeD_len hd
    have hpadlen : (w ++ List.replicate (253 - w.length) 0).length = 253 := by
      simp
      omega
    subst h
    refine ⟨rfl, ?_, ?_⟩
    · simp only [List.getD_cons_succ]
      rw [List.getD_append_right _ _ _ _ (by omega)]
      rw [List.getD_append_right _ _ _ _ (by simp)]
      simp
    · simp only [List.length_cons, List.length_append, List.length_replicate,
        List.length_nil]
      omega
  · intro front c c' hf
    have h0 : ∀ x : Nat, (front ++ [x]).getD 0 0 = front.getD 0 0 :=
      fun x => List.getD_append _ _ _ _ (by omega)
    have h1 : ∀ x : Nat, (front ++ [x]).getD 1 0 = front.getD 1 0 :=
      fun x => List.getD_append _ _ _ _ (by omega)
    have htake : ∀ x : Nat, ((front ++ [x]).drop 2).take 253 = front.drop 2 := by
      intro x
      rw [List.drop_append_of_le_length (by omega)]
      exact List.take_left' (by simp [hf])
    simp only [Packet.deserialize, h0, h1, htake]

/-- Witness for C10: the
acknowledge frame to extension 13 has version byte 0, CRC byte 0, length
256, and two frames differing only in the CRC byte deserialize alike. -/
theorem C10_header_crc_witness :
    ((Packet.serialize ⟨7, .ID 13, .Acknowledge⟩).getD []).getD 0 99 = VERSION ∧
    ((Packet.serialize ⟨7, .ID 13, .Acknowledge⟩).getD []).getD 255 99 = 0 ∧
    ((Packet.serialize ⟨7, .ID 13, .Acknowledge⟩).getD []).length = 256 ∧
    Packet.deserialize (List.replicate 255 0 ++ [9])
      = Packet.deserialize (List.replicate 255 0 ++ [200]) := by
  have h1 := C10_header_crc.1 ⟨7, .ID 13, .Acknowledge⟩
    ((Packet.serialize ⟨7, .ID 13, .Acknowledge⟩).getD []) (by rfl)
  have h2 := C10_header_crc.2 (List.replicate 255 0) 9 200 (by decide)
  exact ⟨h1.1, h1.2.1, h1.2.2, h2⟩

/-- Reduction of `PacketData::parse` on discriminator 1 with a non-zero
status byte. -/
theorem parse_b1_pos {s : Nat} (hs : s ≠ 0) (idb : Nat) (rest : List Nat) :
    PacketData.parse (1 :: s :: idb :: rest)
      = .ok (.InitProbeResponse true (some idb)) := by
  simp [PacketData.parse, hs]

/-- C6 counterexample: `PacketData::parse` is not total — on the 253-byte
payload whose discriminator byte is 4 (the defined `Error` variant) it hits
`todo!("Parse Error Packet")`, i.e. panics, instead of returning `Ok` or a
decode error. -/
theorem C6_counterexample :
    PacketData.parse (4 :: List.replicate 252 0) = .panic ∧
    (4 :: List.replicate 252 0).length = 253 := by
  exact ⟨rfl, by decide⟩

/-- C6 (amended): on every 253-byte payload buffer, `PacketData::parse`
returns `Ok` for the defined discriminators 0, 1, 2, 3, 5, 7, 9 regardless
of the remaining bytes and for 6, 8, 10 on well-formed contents, and returns
`Err(UnknownID(n))` for every discriminator n outside the defined set 0..=10;
but it is not total: it panics (`todo!`) on discriminator 4, and it panics on
malformed contents under discriminator 6 (and likewise 8, 10) — a name
length byte overrunning the buffer, or invalid UTF-8 name bytes. -/
theorem C6_parse_behavior :
    (∀ (n : Nat) (rest : List Nat), 10 < n →
      PacketData.parse (n :: rest) = .err (.UnknownID n)) ∧
    (∀ rest : List Nat, PacketData.parse (4 :: rest) = .panic) ∧
    (∀ rest : List Nat, PacketData.parse (0 :: rest) = .ok .InitProbe ∧
      PacketData.parse (3 :: rest) = .ok .Acknowledge ∧
      PacketData.parse (5 :: rest) = .ok .Restart ∧
      PacketData.parse (7 :: rest) = .ok .Metrics ∧
      PacketData.parse (9 :: rest) = .ok .ConfigureOptions) ∧
    (∀ (idb : Nat) (rest : List Nat),
      PacketData.parse (1 :: 0 :: idb :: rest) = .ok (.InitProbeResponse false none) ∧
      PacketData.parse (2 :: idb :: rest) = .ok (.Init idb)) ∧
    (∀ (s idb : Nat) (rest : List Nat), s ≠ 0 →
      PacketData.parse (1 :: s :: idb :: rest)
        = .ok (.InitProbeResponse true (some idb))) ∧
    (∀ d : PacketData, wfData d = true → ∀ w : List Nat, d.serializeD = some w →
      ∃ d', PacketData.parse (w ++ List.replicate (253 - w.length) 0) = .ok d' ∧
        dataEquiv d d' = true) ∧
    (∀ r2 : List Nat, r2.length < 255 →
      PacketData.parse (6 :: 255 :: r2) = .panic) ∧
    (∀ rest : List Nat, PacketData.parse (6 :: 1 :: 255 :: rest) = .panic) ∧
    (∀ r2 : List Nat, r2.length < 255 →
      PacketData.parse (8 :: 1 :: 255 :: r2) = .panic) ∧
    (∀ rest : List Nat, PacketData.parse (8 :: 1 :: 1 :: 255 :: rest)
      = .panic) ∧
    (∀ r2 : List Nat, r2.length < 255 →
      PacketData.parse (10 :: 1 :: 255 :: r2) = .panic) ∧
    (∀ rest : List Nat, PacketData.parse (10 :: 1 :: 1 :: 255 :: rest)
      = .panic) := by
  refine ⟨?_, ?_, ?_, ?_, ?_, ?_, ?_, ?_, ?_, ?_, ?_, ?_⟩
  · intro n rest hn
    have h0 : ¬ (n = 0) := by omega
    have h1 : ¬ (n = 1) := by omega
    have h2 : ¬ (n = 2) := by omega
    have h3 : ¬ (n = 3) := by omega
    have h4 : ¬ (n = 4) := by omega
    have h5 : ¬ (n = 5) := by omega
    have h6 : ¬ (n = 6) := by omega
    have h7 : ¬ (n = 7) := by omega
    have h8 : ¬ (n = 8) := by omega
    have h9 : ¬ (n = 9) := by omega
    have h10 : ¬ (n = 10) := by omega
    simp [PacketData.parse, h0, h1, h2, h3, h4, h5, h6, h7, h8, h9, h10]
  · intro rest
    simp [PacketData.parse]
  · exact fun rest => ⟨parse_b0 rest, parse_b3 rest, parse_b5 rest,
      parse_b7 rest, parse_b9 rest⟩
  · exact fun idb rest => ⟨parse_b1_false idb rest, parse_b2 idb rest⟩
  · exact fun s idb rest hs => parse_b1_pos hs idb rest
  · exact fun d hd w hw => parseRound hd hw
  · intro r2 h
    simp [PacketData.parse, strDeserialize, h]
  · intro rest
    have hval : isValidUtf8 [255] = false := by decide
    simp [PacketData.parse, strDeserialize, hval]
  · intro r2 h
    simp [PacketData.parse, optsDeserialize, optsDeLoop,
      DataPoint.deserializeDP, strDeserialize, h]
  · intro rest
    have hval : isValidUtf8 [255] = false := by decide
    simp [PacketData.parse, optsDeserialize, optsDeLoop,
      DataPoint.deserializeDP, strDeserialize, hval]
  · intro r2 h
    simp [PacketData.parse, optsDeserialize, optsDeLoop,
      ConfigOption.deserializeCO, strDeserialize, h]
  · intro rest
    have hval : isValidUtf8 [255] = false := by decide
    simp [PacketData.parse, optsDeserialize, optsDeLoop,
      ConfigOption.deserializeCO, strDeserialize, hval]

/-- Witness for C6: concrete instances — unknown discriminator 11 errs; a
Configure payload with an overrunning name length panics; a MetricsResponse
payload whose first data point overruns panics; a ConfigureOptionsResponse
payload with an invalid-UTF-8 name panics; and a status-2 InitProbeResponse
payload parses with id present. -/
theorem C6_parse_behavior_witness :
    PacketData.parse (11 :: List.replicate 252 0) = .err (.UnknownID 11) ∧
    PacketData.parse (6 :: 255 :: List.replicate 251 0) = .panic ∧
    PacketData.parse (8 :: 1 :: 255 :: List.replicate 250 0) = .panic ∧
    PacketData.parse (10 :: 1 :: 1 :: 255 :: List.replicate 249 0)
      = .panic ∧
    PacketData.parse (1 :: 2 :: 13 :: List.replicate 250 0)
      = .ok (.InitProbeResponse true (some 13)) :=
  ⟨C6_parse_behavior.1 11 _ (by decide),
   C6_parse_behavior.2.2.2.2.2.2.1 _ (by decide),
   C6_parse_behavior.2.2.2.2.2.2.2.2.1 _ (by decide),
   C6_parse_behavior.2.2.2.2.2.2.2.2.2.2.2 _,
   C6_parse_behavior.2.2.2.2.1 2 13 _ (by decide)⟩

/-! Extension and Controller roles (`extension.rs`, `controller.rs`). -/

/-- Result of one call to `serial.write` in the non-blocking embedded-hal
interface used by both roles: success, `WouldBlock`, or a hard error. -/
inductive WriteResult where
  | ok
  | wouldBlock
  | otherErr
deriving DecidableEq

/-- Outcome of observing the per-byte write loop for finitely many steps:
either the fuel runs out with the loop still spinning, or the hard-error
path is taken (`return Err(WritingSerial)` in the extension,
`panic!("")` in the controller). There is no success outcome: the loop body
has no `break`, so a successful write falls through and the loop repeats. -/
inductive WriteLoopOut where
  | fuelOut
  | errorReturn
deriving DecidableEq

/-- Embedding of the inner write loop of `Extension::init` for one byte of
the `InitProbeResponse` frame (`extension.rs`, lines 61-70):
`loop { if let Err(e) = serial.write(byte) { match e { WouldBlock =>
continue, _ => return Err(WritingSerial) } } }`. `res n` gives the result of
the n-th write attempt; `fuel` bounds how many attempts are observed. The
second component counts the write attempts made. -/
def extWriteByteLoop (res : Nat → WriteResult) : Nat → Nat → WriteLoopOut × Nat
  | _, 0 => (.fuelOut, 0)
  | attempt, fuel + 1 =>
    match res attempt with
    | .otherErr => (.errorReturn, 1)
    | .wouldBlock =>
      let r := extWriteByteLoop res (attempt + 1) fuel
      (r.1, r.2 + 1)
    | .ok =>
      let r := extWriteByteLoop res (attempt + 1) fuel
      (r.1, r.2 + 1)

/-- C2: contradicted by the code. The `InitProbeResponse{status:false,
id:None}` reply frame does serialize to 256 bytes, but the per-byte write
loop in `Extension::init` never terminates once a write succeeds: its body
lacks a `break` on the `Ok` path, so for every serial device that never
returns a hard error (in particular one whose writes always succeed) the
loop is still running after any finite number of attempts — the first byte
is rewritten forever, the frame is never completed, and the init read loop
is never re-entered. -/
theorem C2_init_write_never_completes :
    (∃ b : List Nat, Packet.serialize
        ⟨VERSION, .Controller, .InitProbeResponse false none⟩ = some b ∧
      b.length = 256) ∧
    (∀ (res : Nat → WriteResult) (fuel attempt : Nat),
      (∀ n, res n ≠ .otherErr) →
      extWriteByteLoop res attempt fuel = (.fuelOut, fuel)) := by
  constructor
  · exact ⟨_, rfl, by rfl⟩
  · intro res fuel attempt h
    induction fuel generalizing attempt with
    | zero => rfl
    | succ k ih =>
      unfold extWriteByteLoop
      rcases hr : res attempt with _ | _ | _
      · simp [ih (attempt + 1)]
      · simp [ih (attempt + 1)]
      · exact absurd hr (h attempt)

/-- Witness for C2: a device whose writes always succeed; after 5 observed
attempts the loop is still spinning. -/
theorem C2_init_write_never_completes_witness :
    (∀ n : Nat, (fun _ : Nat => WriteResult.ok) n ≠ .otherErr) ∧
    extWriteByteLoop (fun _ => .ok) 3 5 = (.fuelOut, 5) :=
  ⟨fun n => by simp,
   C2_init_write_never_completes.2 (fun _ => .ok) 5 3 (fun n => by simp)⟩

/-- Per-slot outcome of `Controller::init` enumeration. -/
inductive SlotOut where
  | entry (id : Nat) (inited : Bool)
  | fuelOut
  | panicked
deriving DecidableEq

/-- Embedding of the probe write loop of `Controller::init`
(`controller.rs`, lines 67-76) for one byte: identical shape to the
extension loop, but a hard error is `panic!("")`. -/
def ctrlWriteByteLoop (res : Nat → WriteResult) : Nat → Nat → WriteLoopOut × Nat
  | _, 0 => (.fuelOut, 0)
  | attempt, fuel + 1 =>
    match res attempt with
    | .otherErr => (.errorReturn, 1)
    | .wouldBlock =>
      let r := ctrlWriteByteLoop res (attempt + 1) fuel
      (r.1, r.2 + 1)
    | .ok =>
      let r := ctrlWriteByteLoop res (attempt + 1) fuel
      (r.1, r.2 + 1)

/-- Embedding of the per-slot body of `Controller::init` (`controller.rs`,
lines 55-97). A not-ready slot records `{ id: idx, initialized: false }`
without touching the serial port. A ready slot selects the line and starts
writing the probe frame; because the per-byte loop has no success exit, the
code after the loop (flush, blocking read, response match, entry recording)
is unreachable — the slot computation either exhausts any fuel or panics on
a hard write error. The second component counts write attempts. -/
def ctrlSlot (idx : Nat) (isReady : Bool) (res : Nat → WriteResult)
    (fuel : Nat) : SlotOut × Nat :=
  if !isReady then (.entry idx false, 0)
  else
    match ctrlWriteByteLoop res 0 fuel with
    | (.errorReturn, n) => (.panicked, n)
    | (.fuelOut, n) => (.fuelOut, n)

/-- C7: the not-ready clause of the claim holds — the recorded entry is
`{ id: idx, initialized: false }` and no probe byte is written — but the
ready-slot clauses are unreachable in the code: the probe write loop never
terminates once a write succeeds (missing `break` on `Ok`, as in
`Extension::init`), so for a ready slot with a non-erroring serial device
`Controller::init` never reads a response and never records an entry. -/
theorem C7_controller_enumeration :
    (∀ (idx : Nat) (res : Nat → WriteResult) (fuel : Nat),
      ctrlSlot idx false res fuel = (.entry idx false, 0)) ∧
    (∀ (idx : Nat) (res : Nat → WriteResult) (fuel : Nat),
      (∀ n, res n ≠ .otherErr) →
      ctrlSlot idx true res fuel = (.fuelOut, fuel)) := by
  have hloop : ∀ (res : Nat → WriteResult) (fuel attempt : Nat),
      (∀ n, res n ≠ .otherErr) →
      ctrlWriteByteLoop res attempt fuel = (.fuelOut, fuel) := by
    intro res fuel attempt h
    induction fuel generalizing attempt with
    | zero => rfl
    | succ k ih =>
      unfold ctrlWriteByteLoop
      rcases hr : res attempt with _ | _ | _
      · simp [ih (attempt + 1)]
      · simp [ih (attempt + 1)]
      · exact absurd hr (h attempt)
  constructor
  · intro idx res fuel
    rfl
  · intro idx res fuel h
    unfold ctrlSlot
    rw [hloop res fuel 0 h]
    simp

/-- Witness for C7: slot 3 not ready records `{3, false}` with zero writes;
ready slot 0 with an always-succeeding device makes no progress in 5
attempts. -/
theorem C7_controller_enumeration_witness :
    ctrlSlot 3 false (fun _ => .ok) 7 = (.entry 3 false, 0) ∧
    ctrlSlot 0 true (fun _ => .ok) 5 = (.fuelOut, 5) :=
  ⟨C7_controller_enumeration.1 3 (fun _ => .ok) 7,
   C7_controller_enumeration.2 0 (fun _ => .ok) 5 (fun n => by simp)⟩

/-- Receiver filter of the `Extension::run` loop (`extension.rs`, lines
121-125): accept `Everyone` while the selection line is high, or the
extension's own id; everything else is skipped. -/
def acceptedReceiver (selfId : Nat) (selected : Bool) : ReceiverID → Bool
  | .Everyone => selected
  | .ID i => decide (i = selfId)
  | .Controller => false

/-- Incoming variants the run loop reserves (`extension.rs`, lines 128-136):
they fall into `todo!("Send Error Response")`. -/
def isReservedIncoming : PacketData → Bool
  | .Init _ => true
  | .InitProbeResponse _ _ => true
  | .Acknowledge => true
  | .Error => true
  | .MetricsResponse _ => true
  | .ConfigureOptionsResponse _ => true
  | _ => false

/-- Outcome of one iteration of the `Extension::run` loop on a received
256-byte frame. -/
inductive RunStep where
  | panicked
  | ignored
  | restart
  | reply (p : Packet)
deriving DecidableEq

/-- Embedding of one iteration of `Extension::run` (`extension.rs`, lines
117-185): deserialize the frame (`.unwrap()` panics on a decode error),
filter by receiver, then dispatch. Reserved variants hit `todo!` (panic);
`Restart` lowers the ready line and returns; the command variants construct
a reply packet (`Configure` also hands the data point to the configure
callback before acknowledging) and serialize it — `Packet::serialize`
panics (the `unwrap`s in `PacketData::serialize`, `packet.rs` lines 172 and
180) when the reply payload does not fit the 253-byte area, which can
happen for the `MetricsResponse` and `ConfigureOptionsResponse` replies. -/
def extensionRunStep (selfId : Nat) (selected : Bool)
    (metrics : List DataPoint) (configOptions : List ConfigOption)
    (buffer : List Nat) : RunStep :=
  match Packet.deserialize buffer with
  | .panic => .panicked
  | .err _ => .panicked
  | .ok p =>
    if !(acceptedReceiver selfId selected p.receiver) then .ignored
    else
      match p.data with
      | .Init _ => .panicked
      | .InitProbeResponse _ _ => .panicked
      | .Acknowledge => .panicked
      | .Error => .panicked
      | .MetricsResponse _ => .panicked
      | .ConfigureOptionsResponse _ => .panicked
      | .InitProbe =>
          match Packet.serialize
              ⟨VERSION, .Controller, .InitProbeResponse true (some selfId)⟩ with
          | none => .panicked
          | some _ =>
              .reply ⟨VERSION, .Controller,
                .InitProbeResponse true (some selfId)⟩
      | .Restart => .restart
      | .Configure _ =>
          match Packet.serialize ⟨VERSION, .Controller, .Acknowledge⟩ with
          | none => .panicked
          | some _ => .reply ⟨VERSION, .Controller, .Acknowledge⟩
      | .Metrics =>
          match Packet.serialize
              ⟨VERSION, .Controller, .MetricsResponse (.Fixed metrics 0)⟩ with
          | none => .panicked
          | some _ =>
              .reply ⟨VERSION, .Controller, .MetricsResponse (.Fixed metrics 0)⟩
      | .ConfigureOptions =>
          match Packet.serialize ⟨VERSION, .Controller,
              .ConfigureOptionsResponse (.Fixed configOptions 0)⟩ with
          | none => .panicked
          | some _ =>
              .reply ⟨VERSION, .Controller,
                .ConfigureOptionsResponse (.Fixed configOptions 0)⟩

/-- C5 counterexample: an `Acknowledge` frame addressed to `ID(13)` decodes
successfully, its receiver is accepted by extension 13, and the run loop
panics on it — the reserved-variant arm is `todo!("Send Error Response")` —
instead of terminating or erroring the task without panicking. Moreover the
reply path itself panics: when the extension's metrics list overflows the
payload (one data point with a 250-byte name), an accepted `Metrics` frame
panics inside `Packet::serialize`'s unwrap instead of replying. -/
theorem C5_counterexample :
    Packet.deserialize ((Packet.serialize ⟨0, .ID 13, .Acknowledge⟩).getD [])
      = .ok ⟨0, .ID 13, .Acknowledge⟩ ∧
    acceptedReceiver 13 false (ReceiverID.ID 13) = true ∧
    extensionRunStep 13 false [] []
      ((Packet.serialize ⟨0, .ID 13, .Acknowledge⟩).getD []) = .panicked ∧
    extensionRunStep 13 false [⟨List.replicate 250 97, .Pwm 1⟩] []
      ((Packet.serialize ⟨0, .ID 13, .Metrics⟩).getD []) = .panicked := by
  refine ⟨?_, rfl, ?_, ?_⟩ <;> rfl

/-- C5 (amended): in the `Extension::run` loop, frames that fail to decode
panic (the `.unwrap()`), and frames decoding to one of the reserved incoming
variants (Init, InitProbeResponse, Acknowledge, Error, MetricsResponse,
ConfigureOptionsResponse) with an accepted receiver panic (the `todo!`);
frames whose receiver is not accepted are ignored; `Restart` returns from
the loop; `InitProbe` and `Configure` produce exactly one reply addressed to
the Controller; `Metrics` and `ConfigureOptions` reply to the Controller
exactly when the response payload serializes into the 253-byte area, and
panic inside `Packet::serialize`'s unwrap when the extension's metrics or
config-options list overflows it. -/
theorem C5_run_step_behavior :
    (∀ (selfId : Nat) (selected : Bool) (ms : List DataPoint)
        (os : List ConfigOption) (buffer : List Nat),
      (Packet.deserialize buffer = .panic ∨
        (∃ e, Packet.deserialize buffer = .err e)) →
      extensionRunStep selfId selected ms os buffer = .panicked) ∧
    (∀ (selfId : Nat) (selected : Bool) (ms : List DataPoint)
        (os : List ConfigOption) (buffer : List Nat) (p : Packet),
      Packet.deserialize buffer = .ok p →
      acceptedReceiver selfId selected p.receiver = false →
      extensionRunStep selfId selected ms os buffer = .ignored) ∧
    (∀ (selfId : Nat) (selected : Bool) (ms : List DataPoint)
        (os : List ConfigOption) (buffer : List Nat) (p : Packet),
      Packet.deserialize buffer = .ok p →
      acceptedReceiver selfId selected p.receiver = true →
      isReservedIncoming p.data = true →
      extensionRunStep selfId selected ms os buffer = .panicked) ∧
    (∀ (selfId : Nat) (selected : Bool) (ms : List DataPoint)
        (os : List ConfigOption) (buffer : List Nat) (p : Packet),
      Packet.deserialize buffer = .ok p →
      acceptedReceiver selfId selected p.receiver = true →
      p.data = .Restart →
      extensionRunStep selfId selected ms os buffer = .restart) ∧
    (∀ (selfId : Nat) (selected : Bool) (ms : List DataPoint)
        (os : List ConfigOption) (buffer : List Nat) (p : Packet),
      Packet.deserialize buffer = .ok p →
      acceptedReceiver selfId selected p.receiver = true →
      p.data = .InitProbe →
      extensionRunStep selfId selected ms os buffer
        = .reply ⟨VERSION, .Controller,
            .InitProbeResponse true (some selfId)⟩) ∧
    (∀ (selfId : Nat) (selected : Bool) (ms : List DataPoint)
        (os : List ConfigOption) (buffer : List Nat) (p : Packet)
        (dp : DataPoint),
      Packet.deserialize buffer = .ok p →
      acceptedReceiver selfId selected p.receiver = true →
      p.data = .Configure dp →
      extensionRunStep selfId selected ms os buffer
        = .reply ⟨VERSION, .Controller, .Acknowledge⟩) ∧
    (∀ (selfId : Nat) (selected : Bool) (ms : List DataPoint)
        (os : List ConfigOption) (buffer : List Nat) (p : Packet),
      Packet.deserialize buffer = .ok p →
      acceptedReceiver selfId selected p.receiver = true →
      p.data = .Metrics →
      PacketData.serializeD (.MetricsResponse (.Fixed ms 0)) = none →
      extensionRunStep selfId selected ms os buffer = .panicked) ∧
    (∀ (selfId : Nat) (selected : Bool) (ms : List DataPoint)
        (os : List ConfigOption) (buffer : List Nat) (p : Packet)
        (w : List Nat),
      Packet.deserialize buffer = .ok p →
      acceptedReceiver selfId selected p.receiver = true →
      p.data = .Metrics →
      PacketData.serializeD (.MetricsResponse (.Fixed ms 0)) = some w →
      extensionRunStep selfId selected ms os buffer
        = .reply ⟨VERSION, .Controller, .MetricsResponse (.Fixed ms 0)⟩) ∧
    (∀ (selfId : Nat) (selected : Bool) (ms : List DataPoint)
        (os : List ConfigOption) (buffer : List Nat) (p : Packet),
      Packet.deserialize buffer = .ok p →
      acceptedReceiver selfId selected p.receiver = true →
      p.data = .ConfigureOptions →
      PacketData.serializeD (.ConfigureOptionsResponse (.Fixed os 0))
        = none →
      extensionRunStep selfId selected ms os buffer = .panicked) ∧
    (∀ (selfId : Nat) (selected : Bool) (ms : List DataPoint)
        (os : List ConfigOption) (buffer : List Nat) (p : Packet)
        (w : List Nat),
      Packet.deserialize buffer = .ok p →
      acceptedReceiver selfId selected p.receiver = true →
      p.data = .ConfigureOptions →
      PacketData.serializeD (.ConfigureOptionsResponse (.Fixed os 0))
        = some w →
      extensionRunStep selfId selected ms os buffer
        = .reply ⟨VERSION, .Controller,
            .ConfigureOptionsResponse (.Fixed os 0)⟩) := by
  refine ⟨?_, ?_, ?_, ?_, ?_, ?_, ?_, ?_, ?_, ?_⟩
  · intro selfId selected ms os buffer h
    unfold extensionRunStep
    rcases h with h | ⟨e, h⟩ <;> rw [h]
  · intro selfId selected ms os buffer p hde hacc
    unfold extensionRunStep
    rw [hde]
    simp [hacc]
  · intro selfId selected ms os buffer p hde hacc hres
    unfold extensionRunStep
    rw [hde]
    simp only [hacc, Bool.not_true, Bool.false_eq_true, if_false]
    cases hd : p.data <;> rw [hd] at hres <;>
      simp [isReservedIncoming] at hres
  · intro selfId selected ms os buffer p hde hacc hd
    unfold extensionRunStep
    rw [hde]
    simp only [hacc, Bool.not_true, Bool.false_eq_true, if_false]
    rw [hd]
  · intro selfId selected ms os buffer p hde hacc hd
    unfold extensionRunStep
    rw [hde]
    simp only [hacc, Bool.not_true, Bool.false_eq_true, if_false]
    rw [hd]
    rfl
  · intro selfId selected ms os buffer p dp hde hacc hd
    unfold extensionRunStep
    rw [hde]
    simp only [hacc, Bool.not_true, Bool.false_eq_true, if_false]
    rw [hd]
    rfl
  · intro selfId selected ms os buffer p hde hacc hd hser
    unfold extensionRunStep
    rw [hde]
    simp only [hacc, Bool.not_true, Bool.false_eq_true, if_false]
    rw [hd]
    simp [Packet.serialize, hser]
  · intro selfId selected ms os buffer p w hde hacc hd hser
    unfold extensionRunStep
    rw [hde]
    simp only [hacc, Bool.not_true, Bool.false_eq_true, if_false]
    rw [hd]
    simp [Packet.serialize, hser]
  · intro selfId selected ms os buffer p hde hacc hd hser
    unfold extensionRunStep
    rw [hde]
    simp only [hacc, Bool.not_true, Bool.false_eq_true, if_false]
    rw [hd]
    simp [Packet.serialize, hser]
  · intro selfId selected ms os buffer p w hde hacc hd hser
    unfold extensionRunStep
    rw [hde]
    simp only [hacc, Bool.not_true, Bool.false_eq_true, if_false]
    rw [hd]
    simp [Packet.serialize, hser]

/-- Witness for C5: an `InitProbe` to the Controller address is ignored by
an unselected extension; a `Restart` addressed to `ID(13)` makes the run
loop return; and a `Metrics` frame to `ID(13)` with a small metrics list
serializes and produces the `MetricsResponse` reply to the Controller. -/
theorem C5_run_step_behavior_witness :
    extensionRunStep 13 false [] []
      ((Packet.serialize ⟨0, .Controller, .InitProbe⟩).getD []) = .ignored ∧
    extensionRunStep 13 false [] []
      ((Packet.serialize ⟨0, .ID 13, .Restart⟩).getD []) = .restart ∧
    extensionRunStep 13 false [⟨[116], .Pwm 10⟩] []
      ((Packet.serialize ⟨0, .ID 13, .Metrics⟩).getD [])
      = .reply ⟨VERSION, .Controller,
          .MetricsResponse (.Fixed [⟨[116], .Pwm 10⟩] 0)⟩ :=
  ⟨C5_run_step_behavior.2.1 13 false [] [] _ ⟨0, .Controller, .InitProbe⟩
      (by rfl) (by rfl),
   C5_run_step_behavior.2.2.2.1 13 false [] [] _ ⟨0, .ID 13, .Restart⟩
      (by rfl) (by rfl) (by rfl),
   C5_run_step_behavior.2.2.2.2.2.2.2.1 13 false [⟨[116], .Pwm 10⟩] [] _
      ⟨0, .ID 13, .Metrics⟩ [8, 1, 1, 116, 1, 10] (by rfl) (by rfl) (by rfl)
      (by rfl)⟩

/-! Timer wheel (`utils/src/timer.rs`, module `fixed_size`), sequential
embedding of the level-1 wheel. Wakers are identified by numeric tokens;
waking is recorded as an output list. -/

/-- Embedding of `ScaleGeneral<N>::scale_ms` (`timer.rs`): ceiling division
of milliseconds into wheel ticks. -/
def scaleMs (n time : Nat) : Nat :=
  if time % n = 0 then time / n else time / n + 1

/-- Embedding of a waker `Slot` (`timer.rs`): `state` 0 = free,
1 = reserving/taken, 2 = armed; the waker cell; the fired flag. -/
structure TSlot where
  state : Nat
  waker : Option Nat
  fired : Bool
deriving DecidableEq

def freshSlot : TSlot := ⟨0, none, false⟩

/-- Embedding of `SlotStorage<32>`, the storage of the level-1 wheel. -/
structure Storage where
  wakers : List TSlot
  used : Nat
deriving DecidableEq

def Storage.fresh : Storage := ⟨List.replicate 32 freshSlot, 0⟩

/-- First free slot scan of `SlotStorage::add_waker`. -/
def findFreeIdx : List TSlot → Nat → Option Nat
  | [], _ => none
  | s :: rest, i => if s.state = 0 then some i else findFreeIdx rest (i + 1)

/-- Embedding of `SlotStorage::add_waker` (`timer.rs`, sequential): the
used-slots counter is fetch-added and checked against 32 (undone with `Err`
when full), then the scan claims the first free slot. A state where the
count is below 32 but no slot is free would make the source's scan `loop`
spin forever; it is unreachable under the storage invariant and marked
`panic` here. -/
def Storage.addWaker (st : Storage) (w : Nat) : Storage × Res Unit Nat :=
  if st.used ≥ 32 then (st, .err ())
  else
    match findFreeIdx st.wakers 0 with
    | none => (st, .panic)
    | some i => (⟨st.wakers.set i ⟨2, some w, false⟩, st.used + 1⟩, .ok i)

/-- Embedding of `SlotStorage::take_slot` (`timer.rs`, sequential): CAS the
state from 2 to 1, then take the waker out of the cell (`None` when the CAS
fails or the cell is empty). -/
def Storage.takeSlot (st : Storage) (i : Nat) : Storage × Option Nat :=
  match st.wakers.get? i with
  | none => (st, none)
  | some s =>
    if s.state = 2 then
      (⟨st.wakers.set i ⟨1, none, s.fired⟩, st.used⟩, s.waker)
    else (st, none)

/-- Sets the fired flag of slot `i` (the `fired.store(true)` in `tick`). -/
def Storage.setFired (st : Storage) (i : Nat) : Storage :=
  match st.wakers.get? i with
  | none => st
  | some s => ⟨st.wakers.set i ⟨s.state, s.waker, true⟩, st.used⟩

/-- Embedding of `LevelOneWheel` (`timer.rs`): the running index and the 32
buckets, −1 meaning empty, otherwise a waker-slot index. -/
structure L1Wheel where
  current : Nat
  slots : List Int
deriving DecidableEq

/-- Embedding of `WheelAddError` (`timer.rs`; the unused `Other` variant is
omitted). -/
inductive WheelAddError where
  | OutOfRange
  | Full
deriving DecidableEq

/-- Embedding of `TimerHandle` (`timer.rs`): `Registered` keeps the waker
slot index it references. -/
inductive TimerHandleM where
  | Registered (idx : Nat)
  | FiredH
deriving DecidableEq

/-- The collision probe of `LevelOneWheel::add_step` (`timer.rs` lines
321-341): `for i in 0..31`, try bucket `(current + time + i) % 32`; the
first empty one wins. `i` is the running offset, `fuel` the remaining
iterations. -/
def probeLoop (slots : List Int) (base : Nat) : Nat → Nat → Option Nat
  | _, 0 => none
  | i, fuel + 1 =>
    if slots.getD ((base + i) % 32) 0 = -1 then some i
    else probeLoop slots base (i + 1) fuel

/-- State of the level-1 `TimerWheel`: the wheel and its `SlotStorage`. -/
structure TimerSys where
  wheel : L1Wheel
  storage : Storage
deriving DecidableEq

def TimerSys.fresh : TimerSys :=
  ⟨⟨0, List.replicate 32 (-1)⟩, Storage.fresh⟩

/-- Result of `add_ms`: the new state, the `Result`, and the wakers woken
during the call. -/
structure AddOut where
  sys : TimerSys
  result : Res WheelAddError TimerHandleM
  woken : List Nat
deriving DecidableEq

/-- Embedding of `LevelOneWheel::add_step` (`timer.rs`): reject `time >= 32`
with `OutOfRange`; claim a waker slot (`Full` when the counter is
exhausted); probe up to 31 buckets for an empty one and stake it; when the
probe window is exhausted return `Full` — the claimed waker slot stays
armed (the source never releases it on this path). -/
def addStep (ts : TimerSys) (time w : Nat) : TimerSys × Res WheelAddError TimerHandleM :=
  if time ≥ 32 then (ts, .err .OutOfRange)
  else
    match ts.storage.addWaker w with
    | (st', .err _) => (⟨ts.wheel, st'⟩, .err .Full)
    | (st', .panic) => (⟨ts.wheel, st'⟩, .panic)
    | (st', .ok wi) =>
      match probeLoop ts.wheel.slots (ts.wheel.current + time) 0 31 with
      | some i =>
        (⟨⟨ts.wheel.current,
            ts.wheel.slots.set ((ts.wheel.current + time + i) % 32) (Int.ofNat wi)⟩,
          st'⟩, .ok (.Registered wi))
      | none => (⟨ts.wheel, st'⟩, .err .Full)

/-- Embedding of `TimerWheel::add_ms` (`timer.rs` lines 376-384): a zero
time wakes the waker immediately and returns `Fired`; otherwise the time is
handed to `add_step` as a non-zero tick count. -/
def TimerSys.addMs (ts : TimerSys) (time w : Nat) : AddOut :=
  if time = 0 then ⟨ts, .ok .FiredH, [w]⟩
  else
    let r := addStep ts time w
    ⟨r.1, r.2, []⟩

/-- Result of one `tick`: the new state, the wakers woken, and whether the
`take_slot(..).unwrap()` panicked. -/
structure TickOut where
  sys : TimerSys
  woken : List Nat
  panicked : Bool
deriving DecidableEq

/-- Embedding of `LevelOneWheel::tick` (`timer.rs` lines 282-308,
sequential): advance the index, read the bucket at the new index; when it
references a slot, clear the bucket, take the slot (`unwrap` panics when it
is not armed), set its fired flag and wake its waker. -/
def TimerSys.tick (ts : TimerSys) : TickOut :=
  let current' := ts.wheel.current + 1
  let index := current' % 32
  let bucket := ts.wheel.slots.getD index 0
  if bucket < 0 then ⟨⟨⟨current', ts.wheel.slots⟩, ts.storage⟩, [], false⟩
  else
    let wi := bucket.toNat
    let slots' := ts.wheel.slots.set index (-1)
    match ts.storage.takeSlot wi with
    | (st', none) => ⟨⟨⟨current', slots'⟩, st'⟩, [], true⟩
    | (st', some w) => ⟨⟨⟨current', slots'⟩, st'.setFired wi⟩, [w], false⟩

/-- Result of `n` consecutive ticks, with the accumulated woken list. -/
structure TicksOut where
  sys : TimerSys
  woken : List Nat
  panicked : Bool
deriving DecidableEq

def tickN (ts : TimerSys) : Nat → TicksOut
  | 0 => ⟨ts, [], false⟩
  | n + 1 =>
    let t := ts.tick
    let r := tickN t.sys n
    ⟨r.sys, t.woken ++ r.woken, t.panicked || r.panicked⟩

/-- Result of polling a `SleepMs` future. -/
inductive PollRes where
  | pending
  | readyOk
  | readyErr
deriving DecidableEq

/-- State of a `SleepMs` future (`timer.rs`): the optional handle and the
already-scaled tick count. -/
structure SleepSt where
  handle : Option TimerHandleM
  time : Nat
deriving DecidableEq

structure PollOut where
  sys : TimerSys
  sleep : SleepSt
  res : PollRes
  woken : List Nat
deriving DecidableEq

/-- Embedding of `SleepMs::poll` (`timer.rs` lines 477-502): the first poll
registers through `add_ms` and returns `Pending` (errors yield
`Ready(Err)`); later polls return `Ready(Ok)` once the handle is `Fired` or
the registered slot's fired flag is set. -/
def sleepPoll (ts : TimerSys) (s : SleepSt) (w : Nat) : PollOut :=
  match s.handle with
  | some .FiredH => ⟨ts, s, .readyOk, []⟩
  | some (.Registered i) =>
    if (ts.storage.wakers.getD i freshSlot).fired then ⟨ts, s, .readyOk, []⟩
    else ⟨ts, s, .pending, []⟩
  | none =>
    let a := ts.addMs s.time w
    match a.result with
    | .ok h => ⟨a.sys, ⟨some h, s.time⟩, .pending, a.woken⟩
    | _ => ⟨a.sys, s, .readyErr, a.woken⟩

/-! States reached in the single-timer scenario of C3. -/

/-- Wheel with one staked bucket `t` (referencing waker slot 0) and the
running index at `k`. -/
def wheelAfter (t k : Nat) : L1Wheel :=
  ⟨k, (List.replicate 32 (-1 : Int)).set t 0⟩

/-- Storage with slot 0 armed with waker `w`. -/
def storageArmed (w : Nat) : Storage :=
  ⟨(List.replicate 32 freshSlot).set 0 ⟨2, some w, false⟩, 1⟩

/-- System state after registering a `t`-tick timer on a fresh wheel and
then ticking `k` times (`k < t`). -/
def sysAfter (t k w : Nat) : TimerSys := ⟨wheelAfter t k, storageArmed w⟩

/-- Storage after the timer fired: slot 0 taken (state 1), fired set. -/
def storageFired : Storage :=
  ⟨(List.replicate 32 freshSlot).set 0 ⟨1, none, true⟩, 1⟩

/-- System state after the staked bucket fired, index at `k`. -/
def sysFired (k : Nat) : TimerSys :=
  ⟨⟨k, List.replicate 32 (-1)⟩, storageFired⟩

theorem getD_replicate {α : Type} (n i : Nat) (a d : α) (h : i < n) :
    (List.replicate n a).getD i d = a := by
  simp [List.getD, List.getElem?_replicate, h]

theorem sleep_register {t w : Nat} (h1 : 1 ≤ t) (h2 : t ≤ 31) :
    sleepPoll TimerSys.fresh ⟨none, t⟩ w
      = ⟨sysAfter t 0 w, ⟨some (.Registered 0), t⟩, .pending, []⟩ := by
  interval_cases t <;> rfl

theorem getD_set_ne {α : Type} (l : List α) (i j : Nat) (x d : α) (h : i ≠ j) :
    (l.set i x).getD j d = l.getD j d := by
  simp [List.getD, List.getElem?_set_ne, h]

theorem getD_set_self {α : Type} (l : List α) (i : Nat) (x d : α)
    (h : i < l.length) : (l.set i x).getD i d = x := by
  simp [List.getD, List.getElem?_set_self', h]

theorem tick_miss {t k w : Nat} (hk : k + 1 < t) (ht : t ≤ 31) :
    (sysAfter t k w).tick = ⟨sysAfter t (k + 1) w, [], false⟩ := by
  unfold TimerSys.tick sysAfter wheelAfter
  simp only []
  have hmod : (k + 1) % 32 = k + 1 := Nat.mod_eq_of_lt (by omega)
  rw [hmod, getD_set_ne _ _ _ _ _ (by omega),
    getD_replicate 32 (k + 1) (-1 : Int) 0 (by omega)]
  simp

theorem tick_hit {t w : Nat} (h1 : 1 ≤ t) (h2 : t ≤ 31) :
    (sysAfter t (t - 1) w).tick = ⟨sysFired t, [w], false⟩ := by
  unfold TimerSys.tick sysAfter wheelAfter storageArmed
  simp only []
  have hc : t - 1 + 1 = t := by omega
  have hmod : t % 32 = t := Nat.mod_eq_of_lt (by omega)
  rw [hc, hmod,
    getD_set_self _ _ _ _ (by simp only [List.length_replicate]; omega)]
  simp only [show ¬((0 : Int) < 0) from by omega, if_neg, Int.toNat_zero]
  have htake : (storageArmed w).takeSlot 0
      = (⟨((List.replicate 32 freshSlot).set 0 ⟨2, some w, false⟩).set 0
          ⟨1, none, false⟩, 1⟩, some w) := by
    unfold Storage.takeSlot storageArmed
    simp [List.getElem?_set_self']
  unfold storageArmed at htake
  rw [htake]
  simp only [List.set_set]
  have hsetf : (Storage.setFired ⟨(List.replicate 32 freshSlot).set 0
      ⟨1, none, false⟩, 1⟩ 0) = storageFired := by
    unfold Storage.setFired storageFired
    simp [List.getElem?_set_self', List.set_set]
  rw [hsetf]
  unfold sysFired
  simp only [List.set_set, List.set_replicate_self]
  simp

theorem tick_fired (k : Nat) : (sysFired k).tick = ⟨sysFired (k + 1), [], false⟩ := by
  unfold TimerSys.tick sysFired
  simp only []
  rw [getD_replicate 32 ((k + 1) % 32) (-1 : Int) 0 (Nat.mod_lt _ (by omega))]
  simp

theorem tickN_fired (k m : Nat) : tickN (sysFired k) m = ⟨sysFired (k + m), [], false⟩ := by
  induction m generalizing k with
  | zero => rfl
  | succ n ih =>
    simp only [tickN, tick_fired k]
    rw [ih (k + 1)]
    have : k + 1 + n = k + (n + 1) := by omega
    rw [this]
    simp

theorem tickN_add (ts : TimerSys) (m n : Nat) :
    tickN ts (m + n) = ⟨(tickN (tickN ts m).sys n).sys,
      (tickN ts m).woken ++ (tickN (tickN ts m).sys n).woken,
      (tickN ts m).panicked || (tickN (tickN ts m).sys n).panicked⟩ := by
  induction m generalizing ts with
  | zero => simp [tickN]
  | succ k ih =>
    have hmn : k + 1 + n = (k + n) + 1 := by omega
    rw [hmn]
    simp only [tickN]
    rw [ih ts.tick.sys]
    simp [List.append_assoc, Bool.or_assoc]

theorem tickN_miss : ∀ (t k w : Nat), t ≤ 31 → k < t →
    tickN (sysAfter t 0 w) k = ⟨sysAfter t k w, [], false⟩ := by
  intro t k w ht
  induction k with
  | zero => intro _; rfl
  | succ j ih =>
    intro hk
    have hj := ih (by omega)
    rw [tickN_add (sysAfter t 0 w) j 1, hj]
    simp only [tickN, tick_miss hk ht]
    simp

theorem tickN_hit {t w : Nat} (h1 : 1 ≤ t) (h2 : t ≤ 31) :
    tickN (sysAfter t 0 w) t = ⟨sysFired t, [w], false⟩ := by
  have hsplit : tickN (sysAfter t 0 w) ((t - 1) + 1)
      = ⟨sysFired t, [w], false⟩ := by
    rw [tickN_add (sysAfter t 0 w) (t - 1) 1,
      tickN_miss t (t - 1) w h2 (by omega)]
    simp only [tickN, tick_hit h1 h2]
    simp
  have ht : (t - 1) + 1 = t := by omega
  rw [ht] at hsplit
  exact hsplit
theorem poll_pending (t k time w : Nat) :
    (sleepPoll (sysAfter t k w) ⟨some (.Registered 0), time⟩ w).res = .pending := by
  simp [sleepPoll, sysAfter, storageArmed, getD_set_self]

theorem poll_ready (k time w : Nat) :
    (sleepPoll (sysFired k) ⟨some (.Registered 0), time⟩ w).res = .readyOk := by
  simp [sleepPoll, sysFired, storageFired, getD_set_self]

/-- C3 counterexample: the claim's bound `t ≤ wheel_width` (32) fails at
`t = 32`: `add_step` rejects `time >= 32` with `OutOfRange`, so registering
a 32-tick sleep on an otherwise empty wheel does not succeed — the first
poll of the sleep future returns `Ready(Err)` instead of registering
(`sleep_ms(320)` on a `Scale10Ms` wheel scales to exactly 32 ticks). -/
theorem C3_counterexample :
    (TimerSys.fresh.addMs 32 0).result = .err .OutOfRange ∧
    (sleepPoll TimerSys.fresh ⟨none, 32⟩ 0).res = .readyErr ∧
    scaleMs 10 320 = 32 := ⟨rfl, rfl, rfl⟩

/-- C3 (amended): for every tick count t with `1 ≤ t ≤ 31` (strictly less
than the level-1 wheel width of 32; t = 32 is rejected with `OutOfRange`,
and t = 0 wakes immediately at registration) and an otherwise empty wheel,
registering a sleep of t ticks succeeds (the first poll arms waker slot 0
and returns `Pending`), every poll before the t-th tick returns `Pending`
and no waker is woken by ticks 1..t-1, the waker is woken by exactly the
t-th call to `tick()` (later ticks wake nothing more), and the next poll
then returns `Ready`. Scenario S7 holds: `sleep_ms(250)` on a `Scale10Ms`
wheel scales to 25 ticks. -/
theorem C3_timer_accuracy :
    (∀ t w : Nat, 1 ≤ t → t ≤ 31 →
      sleepPoll TimerSys.fresh ⟨none, t⟩ w
        = ⟨sysAfter t 0 w, ⟨some (.Registered 0), t⟩, .pending, []⟩) ∧
    (∀ t k w : Nat, 1 ≤ t → t ≤ 31 → k < t →
      tickN (sysAfter t 0 w) k = ⟨sysAfter t k w, [], false⟩ ∧
      (sleepPoll (sysAfter t k w) ⟨some (.Registered 0), t⟩ w).res = .pending) ∧
    (∀ t w : Nat, 1 ≤ t → t ≤ 31 →
      tickN (sysAfter t 0 w) t = ⟨sysFired t, [w], false⟩) ∧
    (∀ t w m : Nat, 1 ≤ t → t ≤ 31 → t ≤ m →
      (tickN (sysAfter t 0 w) m).woken = [w]) ∧
    (∀ k time w : Nat,
      (sleepPoll (sysFired k) ⟨some (.Registered 0), time⟩ w).res = .readyOk) ∧
    scaleMs 10 250 = 25 := by
  refine ⟨?_, ?_, ?_, ?_, ?_, rfl⟩
  · intro t w h1 h2
    exact sleep_register h1 h2
  · intro t k w h1 h2 hk
    exact ⟨tickN_miss t k w h2 hk, poll_pending t k t w⟩
  · intro t w h1 h2
    exact tickN_hit h1 h2
  · intro t w m h1 h2 hm
    obtain ⟨n, rfl⟩ : ∃ n, m = t + n := ⟨m - t, by omega⟩
    rw [tickN_add, tickN_hit h1 h2]
    simp [tickN_fired]
  · intro k time w
    exact poll_ready k time w

/-- Witness for C3: the S7 scenario — a 25-tick sleep on a fresh wheel;
24 ticks wake nothing, the 25th wakes waker 9, and the next poll is ready. -/
theorem C3_timer_accuracy_witness :
    sleepPoll TimerSys.fresh ⟨none, 25⟩ 9
      = ⟨sysAfter 25 0 9, ⟨some (.Registered 0), 25⟩, .pending, []⟩ ∧
    tickN (sysAfter 25 0 9) 24 = ⟨sysAfter 25 24 9, [], false⟩ ∧
    tickN (sysAfter 25 0 9) 25 = ⟨sysFired 25, [9], false⟩ ∧
    (tickN (sysAfter 25 0 9) 30).woken = [9] ∧
    (sleepPoll (sysFired 25) ⟨some (.Registered 0), 25⟩ 9).res = .readyOk :=
  ⟨C3_timer_accuracy.1 25 9 (by decide) (by decide),
   (C3_timer_accuracy.2.1 25 24 9 (by decide) (by decide) (by decide)).1,
   C3_timer_accuracy.2.2.1 25 9 (by decide) (by decide),
   C3_timer_accuracy.2.2.2.1 25 9 30 (by decide) (by decide) (by decide),
   C3_timer_accuracy.2.2.2.2.1 25 25 9⟩

theorem findFreeIdx_none_iff : ∀ (l : List TSlot) (i : Nat),
    findFreeIdx l i = none ↔ ∀ s ∈ l, s.state ≠ 0
  | [], i => by simp [findFreeIdx]
  | s :: rest, i => by
    unfold findFreeIdx
    by_cases hs : s.state = 0
    · simp [hs]
    · simp only [hs, if_false, findFreeIdx_none_iff rest (i + 1)]
      simp [hs]

theorem findFreeIdx_some_bound : ∀ (l : List TSlot) (i j : Nat),
    findFreeIdx l i = some j → i ≤ j ∧ j - i < l.length
  | [], i, j => by simp [findFreeIdx]
  | s :: rest, i, j => by
    unfold findFreeIdx
    by_cases hs : s.state = 0
    · simp [hs]
      intro h
      omega
    · simp only [hs, if_false]
      intro h
      have := findFreeIdx_some_bound rest (i + 1) j h
      simp only [List.length_cons]
      omega

theorem probeLoop_none_iff : ∀ (fuel : Nat) (slots : List Int) (base i : Nat),
    probeLoop slots base i fuel = none ↔
      ∀ k, k < fuel → slots.getD ((base + i + k) % 32) 0 ≠ -1
  | 0, slots, base, i => by simp [probeLoop]
  | fuel + 1, slots, base, i => by
    unfold probeLoop
    by_cases hfree : slots.getD ((base + i) % 32) 0 = -1
    · rw [if_pos hfree]
      constructor
      · intro h
        exact absurd h (by simp)
      · intro h
        exact absurd hfree (by simpa using h 0 (by omega))
    · rw [if_neg hfree, probeLoop_none_iff fuel slots base (i + 1)]
      constructor
      · intro h k hk
        cases k with
        | zero => simpa using hfree
        | succ k2 =>
          have heq : base + i + (k2 + 1) = base + (i + 1) + k2 := by omega
          rw [heq]
          exact h k2 (by omega)
      · intro h k hk
        have heq : base + (i + 1) + k = base + i + (k + 1) := by omega
        rw [heq]
        exact h (k + 1) (by omega)

theorem probeLoop_some_spec : ∀ (fuel : Nat) (slots : List Int) (base i j : Nat),
    probeLoop slots base i fuel = some j →
      i ≤ j ∧ j < i + fuel ∧ slots.getD ((base + j) % 32) 0 = -1
  | 0, slots, base, i, j => by simp [probeLoop]
  | fuel + 1, slots, base, i, j => by
    unfold probeLoop
    by_cases hfree : slots.getD ((base + i) % 32) 0 = -1
    · rw [if_pos hfree]
      intro h
      simp at h
      subst h
      exact ⟨le_refl _, by omega, hfree⟩
    · rw [if_neg hfree]
      intro h
      have := probeLoop_some_spec fuel slots base (i + 1) j h
      exact ⟨by omega, by omega, this.2.2⟩

theorem addStep_reg {ts : TimerSys} {time w : Nat} (h1 : 1 ≤ time)
    (h2 : time < 32) (hused : ts.storage.used < 32)
    (hslot : ∃ s ∈ ts.storage.wakers, s.state = 0)
    (hfree : ∃ k, k < 31 ∧
      ts.wheel.slots.getD ((ts.wheel.current + time + k) % 32) 0 = -1) :
    ∃ wi j, findFreeIdx ts.storage.wakers 0 = some wi ∧
      probeLoop ts.wheel.slots (ts.wheel.current + time) 0 31 = some j ∧
      addStep ts time w = (⟨⟨ts.wheel.current,
        ts.wheel.slots.set ((ts.wheel.current + time + j) % 32) (Int.ofNat wi)⟩,
        ⟨ts.storage.wakers.set wi ⟨2, some w, false⟩, ts.storage.used + 1⟩⟩,
        .ok (.Registered wi)) := by
  rcases hff : findFreeIdx ts.storage.wakers 0 with _ | wi
  · exfalso
    rw [findFreeIdx_none_iff] at hff
    obtain ⟨s, hm, h0⟩ := hslot
    exact hff s hm h0
  rcases hpl : probeLoop ts.wheel.slots (ts.wheel.current + time) 0 31 with _ | j
  · exfalso
    rw [probeLoop_none_iff] at hpl
    obtain ⟨k, hk, hkf⟩ := hfree
    have := hpl k hk
    simp only [Nat.add_zero] at this
    exact this hkf
  refine ⟨wi, j, rfl, rfl, ?_⟩
  unfold addStep
  rw [if_neg (by omega)]
  unfold Storage.addWaker
  rw [if_neg (by omega), hff]
  simp only []
  rw [hpl]

theorem addStep_probe_full {ts : TimerSys} {time w : Nat} (h1 : 1 ≤ time)
    (h2 : time < 32) (hused : ts.storage.used < 32)
    (hslot : ∃ s ∈ ts.storage.wakers, s.state = 0)
    (hnone : ∀ k, k < 31 →
      ts.wheel.slots.getD ((ts.wheel.current + time + k) % 32) 0 ≠ -1) :
    ∃ wi, findFreeIdx ts.storage.wakers 0 = some wi ∧
      addStep ts time w = (⟨ts.wheel,
        ⟨ts.storage.wakers.set wi ⟨2, some w, false⟩, ts.storage.used + 1⟩⟩,
        .err .Full) := by
  rcases hff : findFreeIdx ts.storage.wakers 0 with _ | wi
  · exfalso
    rw [findFreeIdx_none_iff] at hff
    obtain ⟨s, hm, h0⟩ := hslot
    exact hff s hm h0
  have hpl : probeLoop ts.wheel.slots (ts.wheel.current + time) 0 31 = none := by
    rw [probeLoop_none_iff]
    intro k hk
    simp only [Nat.add_zero]
    exact hnone k hk
  refine ⟨wi, rfl, ?_⟩
  unfold addStep
  rw [if_neg (by omega)]
  unfold Storage.addWaker
  rw [if_neg (by omega), hff]
  simp only []
  rw [hpl]

/-- The state reached by registering timers for 1, 2, …, 31 ticks on a
fresh wheel: all 31 probe-window buckets of a subsequent 1-tick add are
occupied while waker slots (and bucket 0) remain free. -/
def crowdedTimer : TimerSys :=
  (List.range 31).foldl (fun ts i => (ts.addMs (i + 1) i).sys) TimerSys.fresh

/-- C4 counterexample: in the crowded state only 31 of 32 waker slots are
used and bucket 0 is empty, yet `add_ms(1, ..)` returns `Err(Full)` — the
31-bucket probe window is exhausted — so "otherwise the result is
Ok(Registered)" fails; the reserved waker slot even leaks (`used_slots`
rises to 32 with no handle returned). -/
theorem C4_counterexample :
    crowdedTimer.storage.used = 31 ∧
    (∃ s ∈ crowdedTimer.storage.wakers, s.state = 0) ∧
    crowdedTimer.wheel.slots.getD 0 0 = -1 ∧
    (crowdedTimer.addMs 1 99).result = .err .Full ∧
    (crowdedTimer.addMs 1 99).sys.storage.used = 32 := by
  refine ⟨by decide, by decide, by decide, by decide, by decide⟩

/-- C4 (amended): for `add_ms(time, waker)` on a level-1 TimerWheel: if
`time == 0` the waker is woken immediately exactly once and the result is
`Ok(Fired)` with the state untouched; if the time reaches the wheel
capacity (`time >= 32`) the result is `Err(OutOfRange)`; if no waker slot
is available (`used_slots >= 32`) the result is `Err(Full)`; otherwise,
when some bucket in the 31-bucket probe window starting at
`current + time` is empty, the result is `Ok(Registered)` referencing the
occupied waker slot (armed with the waker, staked into the first free
probed bucket, nothing woken); but when the probe window is exhausted the
result is `Err(Full)` even though a waker slot was available — and that
slot leaks (`used_slots` is incremented with no handle returned). -/
theorem C4_addms_cases :
    (∀ (ts : TimerSys) (w : Nat), ts.addMs 0 w = ⟨ts, .ok .FiredH, [w]⟩) ∧
    (∀ (ts : TimerSys) (time w : Nat), 32 ≤ time →
      ts.addMs time w = ⟨ts, .err .OutOfRange, []⟩) ∧
    (∀ (ts : TimerSys) (time w : Nat), 1 ≤ time → time < 32 →
      32 ≤ ts.storage.used → ts.addMs time w = ⟨ts, .err .Full, []⟩) ∧
    (∀ (ts : TimerSys) (time w : Nat), 1 ≤ time → time < 32 →
      ts.storage.used < 32 → ts.wheel.slots.length = 32 →
      (∃ s ∈ ts.storage.wakers, s.state = 0) →
      (∃ k, k < 31 ∧
        ts.wheel.slots.getD ((ts.wheel.current + time + k) % 32) 0 = -1) →
      ∃ wi j, (ts.addMs time w).result = .ok (.Registered wi) ∧
        (ts.addMs time w).sys.storage.wakers.getD wi freshSlot
          = ⟨2, some w, false⟩ ∧
        j < 31 ∧
        (ts.addMs time w).sys.wheel.slots.getD
          ((ts.wheel.current + time + j) % 32) 0 = Int.ofNat wi ∧
        (ts.addMs time w).woken = []) ∧
    (∀ (ts : TimerSys) (time w : Nat), 1 ≤ time → time < 32 →
      ts.storage.used < 32 →
      (∃ s ∈ ts.storage.wakers, s.state = 0) →
      (∀ k, k < 31 →
        ts.wheel.slots.getD ((ts.wheel.current + time + k) % 32) 0 ≠ -1) →
      (ts.addMs time w).result = .err .Full ∧
      (ts.addMs time w).woken = [] ∧
      (ts.addMs time w).sys.storage.used = ts.storage.used + 1) := by
  refine ⟨?_, ?_, ?_, ?_, ?_⟩
  · intro ts w
    rfl
  · intro ts time w hb
    unfold TimerSys.addMs
    rw [if_neg (by omega)]
    unfold addStep
    rw [if_pos (by omega)]
  · intro ts time w h1 h2 hused
    unfold TimerSys.addMs
    rw [if_neg (by omega)]
    unfold addStep
    rw [if_neg (by omega)]
    unfold Storage.addWaker
    rw [if_pos (by omega)]
  · intro ts time w h1 h2 hused hsllen hslot hfree
    obtain ⟨wi, j, hff, hpl, hstep⟩ := addStep_reg h1 h2 hused hslot hfree
    have hwi := findFreeIdx_some_bound _ _ _ hff
    have hj := probeLoop_some_spec 31 _ _ 0 j hpl
    have hmod : (ts.wheel.current + time + j) % 32 < 32 := Nat.mod_lt _ (by omega)
    refine ⟨wi, j, ?_, ?_, by omega, ?_, ?_⟩
    · unfold TimerSys.addMs
      rw [if_neg (by omega), hstep]
    · unfold TimerSys.addMs
      rw [if_neg (by omega), hstep]
      exact getD_set_self _ _ _ _ (by omega)
    · unfold TimerSys.addMs
      rw [if_neg (by omega), hstep]
      exact getD_set_self _ _ _ _ (by omega)
    · unfold TimerSys.addMs
      rw [if_neg (by omega), hstep]
  · intro ts time w h1 h2 hused hslot hnone
    obtain ⟨wi, hff, hstep⟩ := addStep_probe_full h1 h2 hused hslot hnone
    refine ⟨?_, ?_, ?_⟩ <;>
      · unfold TimerSys.addMs
        rw [if_neg (by omega), hstep]

/-- Witness for C4: the zero-time, out-of-range, and successful cases at
concrete inputs on a fresh wheel. -/
theorem C4_addms_cases_witness :
    TimerSys.fresh.addMs 0 5 = ⟨TimerSys.fresh, .ok .FiredH, [5]⟩ ∧
    TimerSys.fresh.addMs 40 5 = ⟨TimerSys.fresh, .err .OutOfRange, []⟩ ∧
    (∃ wi j, (TimerSys.fresh.addMs 7 5).result = .ok (.Registered wi) ∧
      (TimerSys.fresh.addMs 7 5).sys.storage.wakers.getD wi freshSlot
        = ⟨2, some 5, false⟩ ∧
      j < 31 ∧
      (TimerSys.fresh.addMs 7 5).sys.wheel.slots.getD
        ((TimerSys.fresh.wheel.current + 7 + j) % 32) 0 = Int.ofNat wi ∧
      (TimerSys.fresh.addMs 7 5).woken = []) :=
  ⟨C4_addms_cases.1 TimerSys.fresh 5,
   C4_addms_cases.2.1 TimerSys.fresh 40 5 (by decide),
   C4_addms_cases.2.2.2.1 TimerSys.fresh 7 5 (by decide) (by decide)
     (by decide) (by decide) (by decide) ⟨0, by decide, by decide⟩⟩

/-! ### Executor runtime (executor/src/lib.rs, waking.rs)

`Runtime::new` builds one `InternalWaker` (ready bit starting `true`) and
one `TaskMetadata` (done flag starting `false`) per task.  `Runtime::run`
loops over scheduling passes: a slot is skipped when
`!iwaker.is_ready() || entry.done`; otherwise the ready bit is stored
`false`, the task future is polled with a waker targeting that slot's
ready bit, and `Poll::Ready` sets the done flag.  A task's behaviour is
abstracted as an oracle `poll : Nat → σ → σ × Bool × Bool` returning the
new task state, whether the poll returned `Ready`, and whether the task
woke its own waker during the poll; wakes arriving from outside a pass
are an environment `Nat → Bool` applied to the ready bits between
passes. -/

structure ExecSlot (σ : Type) where
  done : Bool
  ready : Bool
  st : σ
deriving DecidableEq

def newSlots (σ : Type) (L : Nat) (init : Nat → σ) : List (ExecSlot σ) :=
  (List.range L).map (fun i => ⟨false, true, init i⟩)

def stepSlot {σ : Type} (poll : Nat → σ → σ × Bool × Bool) (id : Nat)
    (s : ExecSlot σ) : ExecSlot σ × Bool :=
  if !s.ready || s.done then (s, false)
  else
    let r := poll id s.st
    (⟨r.2.1, r.2.2, r.1⟩, true)

def runPassAux {σ : Type} (poll : Nat → σ → σ × Bool × Bool) :
    List (ExecSlot σ) → Nat → List (ExecSlot σ) × List Nat
  | [], _ => ([], [])
  | s :: rest, id =>
      let r := stepSlot poll id s
      let rr := runPassAux poll rest (id + 1)
      (r.1 :: rr.1, (if r.2 then [id] else []) ++ rr.2)

def applyEnv {σ : Type} (env : Nat → Bool) :
    List (ExecSlot σ) → Nat → List (ExecSlot σ)
  | [], _ => []
  | s :: rest, id => ⟨s.done, s.ready || env id, s.st⟩ :: applyEnv env rest (id + 1)

def runPasses {σ : Type} (poll : Nat → σ → σ × Bool × Bool) :
    List (Nat → Bool) → List (ExecSlot σ) → List (ExecSlot σ) × List (List Nat)
  | [], slots => (slots, [])
  | env :: envs, slots =>
      let p := runPassAux poll (applyEnv env slots 0) 0
      let rr := runPasses poll envs p.1
      (rr.1, p.2 :: rr.2)

theorem applyEnv_get {σ : Type} (env : Nat → Bool) :
    ∀ (slots : List (ExecSlot σ)) (base i : Nat),
      (applyEnv env slots base)[i]? =
        (slots[i]?).map (fun s => ⟨s.done, s.ready || env (base + i), s.st⟩)
  | [], _, _ => by simp [applyEnv]
  | s :: rest, base, 0 => by simp [applyEnv]
  | s :: rest, base, i + 1 => by
      simp only [applyEnv, List.getElem?_cons_succ]
      rw [applyEnv_get env rest (base + 1) i]
      simp [Nat.add_assoc, Nat.add_comm 1 i]

theorem runPassAux_ids_ge {σ : Type} (poll : Nat → σ → σ × Bool × Bool) :
    ∀ (slots : List (ExecSlot σ)) (base j : Nat),
      j ∈ (runPassAux poll slots base).2 → base ≤ j
  | [], base, j => by simp [runPassAux]
  | s :: rest, base, j => by
      intro hm
      simp only [runPassAux, List.mem_append] at hm
      rcases hm with hm | hm
      · rcases hr : (stepSlot poll base s).2 with _ | _ <;> rw [hr] at hm <;>
          simp at hm
        omega
      · have := runPassAux_ids_ge poll rest (base + 1) j hm
        omega

theorem runPassAux_done {σ : Type} (poll : Nat → σ → σ × Bool × Bool) :
    ∀ (slots : List (ExecSlot σ)) (base i : Nat) (s : ExecSlot σ),
      slots[i]? = some s → s.done = true →
      (runPassAux poll slots base).1[i]? = some s ∧
        (base + i) ∉ (runPassAux poll slots base).2
  | [], base, i, s => by simp
  | s0 :: rest, base, 0, s => by
      intro hget hd
      simp only [List.getElem?_cons_zero, Option.some.injEq] at hget
      subst hget
      have hstep : stepSlot poll base s0 = (s0, false) := by
        simp [stepSlot, hd]
      simp only [runPassAux, hstep, List.getElem?_cons_zero, Nat.add_zero,
        List.mem_append, true_and]
      intro hm
      rcases hm with hm | hm
      · simp at hm
      · exact absurd (runPassAux_ids_ge poll rest (base + 1) base hm) (by omega)
  | s0 :: rest, base, i + 1, s => by
      intro hget hd
      simp only [List.getElem?_cons_succ] at hget
      obtain ⟨h1, h2⟩ := runPassAux_done poll rest (base + 1) i s hget hd
      simp only [runPassAux, List.getElem?_cons_succ, List.mem_append]
      refine ⟨h1, ?_⟩
      intro hm
      rcases hm with hm | hm
      · rcases hr : (stepSlot poll base s0).2 with _ | _ <;> rw [hr] at hm <;>
          simp at hm
      · rw [show base + (i + 1) = base + 1 + i by omega] at hm
        exact h2 hm

theorem runPasses_done {σ : Type} (poll : Nat → σ → σ × Bool × Bool) :
    ∀ (envs : List (Nat → Bool)) (slots : List (ExecSlot σ)) (i : Nat)
      (s : ExecSlot σ),
      slots[i]? = some s → s.done = true →
      (∀ l ∈ (runPasses poll envs slots).2, i ∉ l) ∧
      ∃ s2, (runPasses poll envs slots).1[i]? = some s2 ∧ s2.done = true
  | [], slots, i, s => by
      intro hget hd
      exact ⟨by simp [runPasses], ⟨s, by simpa [runPasses] using hget, hd⟩⟩
  | env :: envs, slots, i, s => by
      intro hget hd
      have hget1 : (applyEnv env slots 0)[i]? =
          some ⟨s.done, s.ready || env i, s.st⟩ := by
        rw [applyEnv_get, hget]
        simp
      obtain ⟨hp1, hp2⟩ :=
        runPassAux_done poll (applyEnv env slots 0) 0 i _ hget1 hd
      rw [Nat.zero_add] at hp2
      obtain ⟨hrest, s2, hs2, hs2d⟩ :=
        runPasses_done poll envs (runPassAux poll (applyEnv env slots 0) 0).1
          i _ hp1 hd
      refine ⟨?_, s2, ?_, hs2d⟩
      · intro l hl
        simp only [runPasses, List.mem_cons] at hl
        rcases hl with hl | hl
        · subst hl
          exact hp2
        · exact hrest l hl
      · simpa [runPasses] using hs2

def demoPoll : Nat → Nat → Nat × Bool × Bool :=
  fun _ st => (st + 1, decide (1 ≤ st), false)

/-- C8: the Runtime scheduling invariant.  On construction every slot has
its done flag `false` and its wake bit `true`; within a pass a slot is
polled exactly when its wake bit is set and its done flag is clear; a
polled slot has its wake bit cleared before the poll (so afterwards it
holds exactly the self-wake signal) and its done flag set exactly when
the poll returned `Ready`; a slot whose done flag is set is left
untouched; and across any sequence of passes with arbitrary external
wakes, a slot whose done flag is set is never polled again and its done
flag stays set. -/
theorem C8_runtime_invariant :
    (∀ (L : Nat) (init : Nat → Nat), ∀ s ∈ newSlots Nat L init,
      s.done = false ∧ s.ready = true) ∧
    (∀ (poll : Nat → Nat → Nat × Bool × Bool) (id : Nat) (s : ExecSlot Nat),
      (stepSlot poll id s).2 = true ↔ s.ready = true ∧ s.done = false) ∧
    (∀ (poll : Nat → Nat → Nat × Bool × Bool) (id : Nat) (s : ExecSlot Nat),
      s.ready = true → s.done = false →
      (stepSlot poll id s).1 =
        ⟨(poll id s.st).2.1, (poll id s.st).2.2, (poll id s.st).1⟩) ∧
    (∀ (poll : Nat → Nat → Nat × Bool × Bool) (id : Nat) (s : ExecSlot Nat),
      s.done = true → stepSlot poll id s = (s, false)) ∧
    (∀ (poll : Nat → Nat → Nat × Bool × Bool) (envs : List (Nat → Bool))
      (slots : List (ExecSlot Nat)) (i : Nat) (s : ExecSlot Nat),
      slots[i]? = some s → s.done = true →
      (∀ l ∈ (runPasses poll envs slots).2, i ∉ l) ∧
      ∃ s2, (runPasses poll envs slots).1[i]? = some s2 ∧ s2.done = true) := by
  refine ⟨?_, ?_, ?_, ?_, ?_⟩
  · intro L init s hs
    simp only [newSlots, List.mem_map] at hs
    obtain ⟨i, _, hi⟩ := hs
    rw [← hi]
    exact ⟨rfl, rfl⟩
  · intro poll id s
    rcases s with ⟨d, r, st⟩
    cases d <;> cases r <;> simp [stepSlot]
  · intro poll id s hr hd
    rcases s with ⟨d, r, st⟩
    simp only at hr hd
    subst hr hd
    simp [stepSlot]
  · intro poll id s hd
    rcases s with ⟨d, r, st⟩
    simp only at hd
    subst hd
    simp [stepSlot]
  · intro poll envs slots i s hget hd
    exact runPasses_done poll envs slots i s hget hd

/-- Witness for C8: the invariant clauses applied to concrete slots, a
concrete poll oracle and a concrete two-pass run. -/
theorem C8_runtime_invariant_witness :
    ((⟨false, true, 0⟩ : ExecSlot Nat).done = false ∧
      (⟨false, true, 0⟩ : ExecSlot Nat).ready = true) ∧
    ((stepSlot demoPoll 0 ⟨false, true, 7⟩).1 =
      ⟨(demoPoll 0 7).2.1, (demoPoll 0 7).2.2, (demoPoll 0 7).1⟩) ∧
    (stepSlot demoPoll 2 ⟨true, true, 7⟩ = (⟨true, true, 7⟩, false)) ∧
    ((∀ l ∈ (runPasses demoPoll [fun _ => false, fun _ => true]
        [⟨true, true, 0⟩, ⟨false, true, 5⟩]).2, 0 ∉ l) ∧
      ∃ s2, (runPasses demoPoll [fun _ => false, fun _ => true]
        [⟨true, true, 0⟩, ⟨false, true, 5⟩]).1[0]? = some s2 ∧
        s2.done = true) :=
  ⟨C8_runtime_invariant.1 3 (fun i => i) ⟨false, true, 0⟩ (by decide),
   C8_runtime_invariant.2.2.1 demoPoll 0 ⟨false, true, 7⟩ rfl rfl,
   C8_runtime_invariant.2.2.2.1 demoPoll 2 ⟨true, true, 7⟩ rfl,
   C8_runtime_invariant.2.2.2.2 demoPoll [fun _ => false, fun _ => true]
     [⟨true, true, 0⟩, ⟨false, true, 5⟩] 0 ⟨true, true, 0⟩ rfl rfl⟩

/-! ### Unbounded MPSC queue (utils/src/queue.rs)

Segments are `Buffer<T, 4>`: four entries (an atomic state byte and an
`Option<T>` data cell), a claim cursor `pos` (`fetch_add` on every
enqueue attempt, failed ones included), a `ref_count`, and a `next`
pointer — the chain of live buffers is a list whose head is `Rx::head`
and whose last element is the producer tail.  `Tx::try_enqueue` claims a
slot in the tail; on overflow it allocates a fresh buffer, links it
(ref_count 1), retires the old tail (ref_count − 1) and retries.
`Rx::try_dequeue` scans entries from `self.pos` in the head for the
first one in state 2, takes its value (state ← 3), and advances `pos`
only when the relative hit index equals `pos`; an exhausted buffer with
a successor is freed when fully consumed with ref_count 0 (on the
initial hop only — `todo!("Cant Free")` panics when the ref_count is
still live).  The interleaving of the single producer and the single
consumer is modelled sequentially, so the two atomic state stores of a
successful enqueue collapse into writing `⟨2, some x⟩`. -/

structure QEntry (α : Type) where
  state : Nat
  data : Option α
deriving DecidableEq

structure Seg (α : Type) where
  entries : List (QEntry α)
  pos : Nat
  refc : Int
deriving DecidableEq

structure QState (α : Type) where
  segs : List (Seg α)
  rxPos : Nat
deriving DecidableEq

def freshEntries (α : Type) : List (QEntry α) := List.replicate 4 ⟨0, none⟩

def segEnqueue {α : Type} (s : Seg α) (x : α) : Seg α × Bool :=
  if s.pos ≥ 4 then ({ s with pos := s.pos + 1 }, false)
  else ({ s with entries := s.entries.set s.pos ⟨2, some x⟩, pos := s.pos + 1 }, true)

def enqSegs {α : Type} (x : α) : List (Seg α) → List (Seg α)
  | [] => []
  | [s] =>
      let r := segEnqueue s x
      if r.2 then [r.1]
      else
        { r.1 with refc := r.1.refc - 1 } ::
          [(segEnqueue ⟨freshEntries α, 0, 1⟩ x).1]
  | s :: s2 :: rest => s :: enqSegs x (s2 :: rest)

def txEnqueue {α : Type} (q : QState α) (x : α) : QState α :=
  ⟨enqSegs x q.segs, q.rxPos⟩

def firstTwo {α : Type} : List (QEntry α) → Option Nat
  | [] => none
  | e :: rest => if e.state = 2 then some 0 else (firstTwo rest).map (fun n => n + 1)

def deqLater {α : Type} : List (Seg α) → Res Unit α × List (Seg α)
  | [] => (.panic, [])
  | s :: rest =>
      match firstTwo s.entries with
      | some i =>
          match (s.entries.getD i ⟨0, none⟩).data with
          | none => (.panic, s :: rest)
          | some v => (.ok v, { s with entries := s.entries.set i ⟨3, none⟩ } :: rest)
      | none =>
          match rest with
          | [] => (.err (), [s])
          | s2 :: rest2 =>
              if s.entries.all (fun e => e.state == 3) then
                if s.refc = 0 then
                  let r := deqLater (s2 :: rest2)
                  (r.1, s :: r.2)
                else (.panic, s :: rest)
              else
                let r := deqLater (s2 :: rest2)
                (r.1, s :: r.2)

def deqFirst {α : Type} (s : Seg α) (rest : List (Seg α)) (pos : Nat) :
    Res Unit α × QState α :=
  match firstTwo (s.entries.drop pos) with
  | some i =>
      match (s.entries.getD (pos + i) ⟨0, none⟩).data with
      | none => (.panic, ⟨s :: rest, pos⟩)
      | some v =>
          (.ok v, ⟨{ s with entries := s.entries.set (pos + i) ⟨3, none⟩ } :: rest,
            if pos = i then pos + 1 else pos⟩)
  | none =>
      match rest with
      | [] => (.err (), ⟨[s], pos⟩)
      | s2 :: rest2 =>
          if s.entries.all (fun e => e.state == 3) then
            if s.refc = 0 then
              let r := deqLater (s2 :: rest2)
              (r.1, ⟨r.2, 0⟩)
            else (.panic, ⟨s :: rest, pos⟩)
          else
            let r := deqLater (s2 :: rest2)
            (r.1, ⟨s :: r.2, pos⟩)

def tryDequeue {α : Type} (q : QState α) : Res Unit α × QState α :=
  match q.segs with
  | [] => (.panic, q)
  | s :: rest => deqFirst s rest q.rxPos

inductive QOp (α : Type)
  | enq (x : α)
  | deq
deriving DecidableEq

def runOps {α : Type} : QState α → List (QOp α) → List (Res Unit α)
  | _, [] => []
  | q, .enq x :: ops => runOps (txEnqueue q x) ops
  | q, .deq :: ops => (tryDequeue q).1 :: runOps (tryDequeue q).2 ops

def initQ (α : Type) : QState α := ⟨[⟨freshEntries α, 0, 1⟩], 0⟩

def specRun {α : Type} : List α → List (QOp α) → List (Res Unit α)
  | _, [] => []
  | m, .enq x :: ops => specRun (m ++ [x]) ops
  | [], .deq :: ops => .err () :: specRun [] ops
  | x :: xs, .deq :: ops => .ok x :: specRun xs ops

def midEntries {α : Type} (c : Nat) (xs : List α) (z : Nat) : List (QEntry α) :=
  List.replicate c ⟨3, none⟩ ++
    (xs.map (fun v => ⟨2, some v⟩) ++ List.replicate z ⟨0, none⟩)

def tailSegQ {α : Type} (c : Nat) (xs : List α) : Seg α :=
  ⟨midEntries c xs (4 - (c + xs.length)), c + xs.length, 1⟩

def fullSegQ {α : Type} (xs : List α) : Seg α :=
  ⟨xs.map (fun v => ⟨2, some v⟩), 5, 0⟩

def headSegQ {α : Type} (c : Nat) (xs : List α) : Seg α :=
  ⟨midEntries c xs 0, 5, 0⟩

def QInv {α : Type} (q : QState α) (m : List α) : Prop :=
  (∃ c vs, c + List.length vs ≤ 4 ∧ q.rxPos ≤ c ∧
    q.segs = [tailSegQ c vs] ∧ m = vs) ∨
  (∃ (c : Nat) (vs : List α) (mids : List (List α)) (ws : List α),
    c + List.length vs = 4 ∧ q.rxPos ≤ c ∧ List.length ws ≤ 4 ∧
    (∀ ch ∈ mids, List.length ch = 4) ∧
    q.segs = headSegQ c vs :: (mids.map fullSegQ ++ [tailSegQ 0 ws]) ∧
    m = vs ++ (mids.flatten ++ ws))

theorem midEntries_set3 {α : Type} (c : Nat) (v : α) (vs : List α) (z : Nat) :
    (midEntries c (v :: vs) z).set c ⟨3, none⟩ = midEntries (c + 1) vs z := by
  simp only [midEntries, List.map_cons, List.cons_append]
  rw [List.set_append_right _ _ (by simp)]
  simp [List.replicate_succ', List.append_assoc]

theorem midEntries_fill {α : Type} (c : Nat) (xs : List α) (z : Nat) (x : α) :
    (midEntries c xs (z + 1)).set (c + xs.length) ⟨2, some x⟩
      = midEntries c (xs ++ [x]) z := by
  simp only [midEntries, ← List.append_assoc]
  rw [List.set_append_right _ _ (by simp)]
  simp [List.replicate_succ]

theorem firstTwo_mid_pending {α : Type} :
    ∀ (k : Nat) (v : α) (l : List (QEntry α)),
      firstTwo (List.replicate k ⟨3, none⟩ ++ (⟨2, some v⟩ :: l)) = some k
  | 0, v, l => by simp [firstTwo]
  | k + 1, v, l => by
      simp [List.replicate_succ, firstTwo, firstTwo_mid_pending k v l]

theorem firstTwo_rep0 {α : Type} :
    ∀ z, firstTwo (List.replicate z (⟨0, none⟩ : QEntry α)) = none
  | 0 => rfl
  | z + 1 => by simp [List.replicate_succ, firstTwo, firstTwo_rep0 z]

theorem firstTwo_mid_none {α : Type} :
    ∀ (k z : Nat),
      firstTwo (List.replicate k (⟨3, none⟩ : QEntry α) ++
        List.replicate z ⟨0, none⟩) = none
  | 0, z => by simpa using firstTwo_rep0 z
  | k + 1, z => by
      simp [List.replicate_succ, firstTwo, firstTwo_mid_none k z]

theorem getD_mid_pending2 {α : Type} (c : Nat) (v : α) (vs : List α) (z : Nat)
    (d : QEntry α) : (midEntries c (v :: vs) z).getD c d = ⟨2, some v⟩ := by
  simp only [midEntries, List.map_cons, List.cons_append]
  rw [List.getD_append_right _ _ _ _ (by simp)]
  simp

theorem midEntries_drop {α : Type} (c : Nat) (xs : List α) (z p : Nat)
    (h : p ≤ c) :
    (midEntries c xs z).drop p
      = List.replicate (c - p) ⟨3, none⟩ ++
          (xs.map (fun v => ⟨2, some v⟩) ++ List.replicate z ⟨0, none⟩) := by
  simp only [midEntries]
  rw [List.drop_append_of_le_length (by simp [h])]
  rw [List.drop_replicate]

theorem deqFirst_take {α : Type} (c z p : Nat) (rc : Int) (rp : Nat) (v : α)
    (vs : List α) (R : List (Seg α)) (h : rp ≤ c) :
    deqFirst (⟨midEntries c (v :: vs) z, p, rc⟩ : Seg α) R rp
      = (.ok v, ⟨(⟨midEntries (c + 1) vs z, p, rc⟩ : Seg α) :: R,
          if rp = c - rp then rp + 1 else rp⟩) := by
  have hdrop := midEntries_drop c (v :: vs) z rp h
  simp only [List.map_cons, List.cons_append] at hdrop
  have hidx : rp + (c - rp) = c := by omega
  simp only [deqFirst, hdrop, firstTwo_mid_pending, hidx, getD_mid_pending2,
    midEntries_set3]

theorem deqFirst_none_norest {α : Type} (c z p : Nat) (rc : Int) (rp : Nat)
    (h : rp ≤ c) :
    deqFirst (⟨midEntries c ([] : List α) z, p, rc⟩ : Seg α) [] rp
      = (.err (), ⟨[(⟨midEntries c ([] : List α) z, p, rc⟩ : Seg α)], rp⟩) := by
  have hdrop := midEntries_drop c ([] : List α) z rp h
  simp only [List.map_nil, List.nil_append] at hdrop
  simp only [deqFirst, hdrop, firstTwo_mid_none]

theorem all3_mid {α : Type} :
    (midEntries 4 ([] : List α) 0).all (fun e => e.state == 3) = true := rfl

theorem deqFirst_skip_head {α : Type} (rp : Nat) (s2 : Seg α)
    (R2 : List (Seg α)) (h : rp ≤ 4) :
    deqFirst (⟨midEntries 4 ([] : List α) 0, 5, 0⟩ : Seg α) (s2 :: R2) rp
      = ((deqLater (s2 :: R2)).1, ⟨(deqLater (s2 :: R2)).2, 0⟩) := by
  have hdrop := midEntries_drop 4 ([] : List α) 0 rp h
  simp only [List.map_nil, List.nil_append] at hdrop
  simp only [deqFirst, hdrop, firstTwo_mid_none, all3_mid]
  simp

theorem deqLater_take {α : Type} (a : α) (l : List (QEntry α)) (p : Nat)
    (rc : Int) (R : List (Seg α)) :
    deqLater ((⟨⟨2, some a⟩ :: l, p, rc⟩ : Seg α) :: R)
      = (.ok a, (⟨⟨3, none⟩ :: l, p, rc⟩ : Seg α) :: R) := by
  simp [deqLater, firstTwo]

theorem deqLater_none {α : Type} (p : Nat) (rc : Int) :
    deqLater [(⟨List.replicate 4 ⟨0, none⟩, p, rc⟩ : Seg α)]
      = (.err (), [(⟨List.replicate 4 ⟨0, none⟩, p, rc⟩ : Seg α)]) := by
  simp [deqLater, firstTwo, List.replicate_succ]

theorem enqSegs_cons2 {α : Type} (x : α) (a b : Seg α) (R : List (Seg α)) :
    enqSegs x (a :: b :: R) = a :: enqSegs x (b :: R) := rfl

theorem enqSegs_append {α : Type} (x : α) : ∀ (l : List (Seg α)) (s : Seg α),
    enqSegs x (l ++ [s]) = l ++ enqSegs x [s]
  | [], s => rfl
  | a :: l, s => by
      cases l with
      | nil => simp [enqSegs_cons2]
      | cons b l2 =>
          have ih := enqSegs_append x (b :: l2) s
          simp only [List.cons_append] at ih ⊢
          rw [enqSegs_cons2, ih]

theorem enqSegs_one {α : Type} (x : α) (s : Seg α) :
    enqSegs x [s] =
      (if (segEnqueue s x).2 then [(segEnqueue s x).1]
       else { (segEnqueue s x).1 with refc := (segEnqueue s x).1.refc - 1 } ::
         [(segEnqueue (⟨freshEntries α, 0, 1⟩ : Seg α) x).1]) := rfl

theorem enqSegs_tail_fill {α : Type} (c : Nat) (vs : List α) (x : α)
    (h : c + vs.length < 4) :
    enqSegs x [tailSegQ c vs] = [tailSegQ c (vs ++ [x])] := by
  have hz : 4 - (c + vs.length) = (4 - (c + (vs.length + 1))) + 1 := by omega
  have hse : segEnqueue (tailSegQ c vs) x = (tailSegQ c (vs ++ [x]), true) := by
    simp only [segEnqueue, tailSegQ]
    rw [if_neg (by omega)]
    rw [hz, midEntries_fill]
    have hlen : (vs ++ [x]).length = vs.length + 1 := by simp
    simp only [tailSegQ, hlen]
    rw [Nat.add_assoc]
  rw [enqSegs_one, hse]
  rfl

theorem enqSegs_tail_over {α : Type} (c : Nat) (vs : List α) (x : α)
    (h : c + vs.length = 4) :
    enqSegs x [tailSegQ c vs] =
      [⟨midEntries c vs 0, 5, 0⟩, ⟨midEntries 0 [x] 3, 1, 1⟩] := by
  have hse : segEnqueue (tailSegQ c vs) x
      = ((⟨midEntries c vs 0, 5, 1⟩ : Seg α), false) := by
    simp only [segEnqueue, tailSegQ]
    have hge : c + vs.length ≥ 4 := by omega
    rw [if_pos hge]
    simp [h]
  have hse2 : segEnqueue (⟨freshEntries α, 0, 1⟩ : Seg α) x
      = ((⟨midEntries 0 [x] 3, 1, 1⟩ : Seg α), true) := by
    simp only [segEnqueue, freshEntries]
    have hlt : ¬ (0 : Nat) ≥ 4 := by omega
    rw [if_neg hlt]
    simp [midEntries, List.replicate_succ]
  rw [enqSegs_one, hse, hse2]
  rfl

theorem enq_pres {α : Type} (q : QState α) (m : List α) (x : α)
    (h : QInv q m) : QInv (txEnqueue q x) (m ++ [x]) := by
  rcases h with ⟨c, vs, hle, hpos, hsegs, hm⟩ |
    ⟨c, vs, mids, ws, h4, hpos, hws, hmids, hsegs, hm⟩
  · by_cases hlt : c + vs.length < 4
    · refine Or.inl ⟨c, vs ++ [x], ?_, hpos, ?_, by rw [hm]⟩
      · simp only [List.length_append, List.length_singleton]
        omega
      · simp only [txEnqueue, hsegs, enqSegs_tail_fill c vs x hlt]
    · have h4 : c + vs.length = 4 := by omega
      refine Or.inr ⟨c, vs, [], [x], h4, hpos, by simp, by simp, ?_,
        by rw [hm]; simp⟩
      simp only [txEnqueue, hsegs, enqSegs_tail_over c vs x h4]
      simp [headSegQ, tailSegQ]
  · have hsplit : headSegQ c vs :: (mids.map fullSegQ ++ [tailSegQ 0 ws])
        = (headSegQ c vs :: mids.map fullSegQ) ++ [tailSegQ 0 ws] := by simp
    by_cases hlt : ws.length < 4
    · refine Or.inr ⟨c, vs, mids, ws ++ [x], h4, hpos, ?_, hmids, ?_, ?_⟩
      · simp only [List.length_append, List.length_singleton]
        omega
      · simp only [txEnqueue, hsegs, hsplit,
          enqSegs_append x (headSegQ c vs :: mids.map fullSegQ) (tailSegQ 0 ws),
          enqSegs_tail_fill 0 ws x (by omega)]
        simp
      · rw [hm]
        simp [List.append_assoc]
    · have h4w : ws.length = 4 := by omega
      refine Or.inr ⟨c, vs, mids ++ [ws], [x], h4, hpos, by simp, ?_, ?_, ?_⟩
      · intro ch hch
        rcases List.mem_append.mp hch with h1 | h1
        · exact hmids ch h1
        · rw [List.mem_singleton.mp h1]
          exact h4w
      · simp only [txEnqueue, hsegs, hsplit,
          enqSegs_append x (headSegQ c vs :: mids.map fullSegQ) (tailSegQ 0 ws),
          enqSegs_tail_over 0 ws x (by omega)]
        have hfull : (⟨midEntries 0 ws 0, 5, 0⟩ : Seg α) = fullSegQ ws := by
          simp [midEntries, fullSegQ]
        have htl : (⟨midEntries 0 [x] 3, 1, 1⟩ : Seg α) = tailSegQ 0 [x] := by
          simp [tailSegQ]
        rw [hfull, htl]
        simp
      · rw [hm]
        simp [List.append_assoc]

theorem QInv_init {α : Type} : QInv (initQ α) [] := by
  refine Or.inl ⟨0, [], by simp, by simp [initQ], ?_, rfl⟩
  simp [initQ, tailSegQ, midEntries, freshEntries]

theorem deq_pres {α : Type} (q : QState α) (m : List α) (h : QInv q m) :
    (tryDequeue q).1 = (match m with | [] => Res.err () | x :: _ => Res.ok x) ∧
    QInv (tryDequeue q).2 m.tail := by
  rcases h with ⟨c, vs, hle, hpos, hsegs, hm⟩ |
    ⟨c, vs, mids, ws, h4, hpos, hws, hmids, hsegs, hm⟩
  · rcases vs with _ | ⟨v, vs'⟩
    · subst hm
      have hres : tryDequeue q
          = (.err (), ⟨[(⟨midEntries c ([] : List α) (4 - c), c, 1⟩ : Seg α)],
              q.rxPos⟩) := by
        simp only [tryDequeue, hsegs, tailSegQ, List.length_nil, Nat.add_zero]
        exact deqFirst_none_norest c (4 - c) c 1 q.rxPos hpos
      rw [hres]
      refine ⟨rfl, Or.inl ⟨c, [], hle, hpos, ?_, rfl⟩⟩
      simp [tailSegQ]
    · subst hm
      have hres : tryDequeue q
          = (.ok v, ⟨[(⟨midEntries (c + 1) vs' (4 - (c + (vs'.length + 1))),
                c + (vs'.length + 1), 1⟩ : Seg α)],
              if q.rxPos = c - q.rxPos then q.rxPos + 1 else q.rxPos⟩) := by
        simp only [tryDequeue, hsegs, tailSegQ, List.length_cons]
        exact deqFirst_take c _ _ _ _ v vs' [] hpos
      rw [hres]
      have hle2 : (c + 1) + vs'.length ≤ 4 := by
        simp only [List.length_cons] at hle
        omega
      refine ⟨rfl, Or.inl ⟨c + 1, vs', hle2, ?_, ?_, rfl⟩⟩
      · dsimp only
        split <;> omega
      · dsimp only
        rw [show (⟨midEntries (c + 1) vs' (4 - (c + (vs'.length + 1))),
              c + (vs'.length + 1), 1⟩ : Seg α) = tailSegQ (c + 1) vs' from by
          simp only [tailSegQ]
          rw [show (c + 1) + vs'.length = c + (vs'.length + 1) by omega]]
  · rcases vs with _ | ⟨v, vs'⟩
    · have hc : c = 4 := by simpa using h4
      subst hc
      rcases mids with _ | ⟨ch, mids'⟩
      · rcases ws with _ | ⟨w, ws'⟩
        · simp only [List.flatten_nil, List.nil_append, List.append_nil] at hm
          subst hm
          have hres : tryDequeue q
              = (.err (), ⟨[(⟨List.replicate 4 ⟨0, none⟩, 0, 1⟩ : Seg α)],
                  0⟩) := by
            simp only [tryDequeue, hsegs, headSegQ, List.map_nil,
              List.nil_append]
            rw [show tailSegQ 0 ([] : List α)
                  = (⟨List.replicate 4 ⟨0, none⟩, 0, 1⟩ : Seg α) from by
                simp [tailSegQ, midEntries],
              deqFirst_skip_head q.rxPos _ _ hpos, deqLater_none]
          rw [hres]
          refine ⟨rfl, Or.inl ⟨0, [], by simp, Nat.zero_le 0, ?_, rfl⟩⟩
          simp [tailSegQ, midEntries]
        · simp only [List.flatten_nil, List.nil_append] at hm
          subst hm
          have hws2 : ws'.length + 1 ≤ 4 := by simpa using hws
          have hres : tryDequeue q
              = (.ok w, ⟨[(⟨midEntries 1 ws' (4 - (ws'.length + 1)),
                    ws'.length + 1, 1⟩ : Seg α)], 0⟩) := by
            simp only [tryDequeue, hsegs, headSegQ, List.map_nil,
              List.nil_append]
            rw [show tailSegQ 0 (w :: ws')
                  = (⟨⟨2, some w⟩ :: (ws'.map (fun v => (⟨2, some v⟩ : QEntry α))
                      ++ List.replicate (4 - (ws'.length + 1)) ⟨0, none⟩),
                    ws'.length + 1, 1⟩ : Seg α) from by
                simp [tailSegQ, midEntries],
              deqFirst_skip_head q.rxPos _ _ hpos, deqLater_take]
            rw [show (⟨3, none⟩ :: (ws'.map (fun v => (⟨2, some v⟩ : QEntry α))
                  ++ List.replicate (4 - (ws'.length + 1)) ⟨0, none⟩)
                    : List (QEntry α))
                  = midEntries 1 ws' (4 - (ws'.length + 1)) from by
              simp [midEntries, List.replicate_succ]]
          rw [hres]
          refine ⟨rfl, Or.inl ⟨1, ws', by omega, Nat.zero_le 1, ?_, rfl⟩⟩
          dsimp only
          rw [show (⟨midEntries 1 ws' (4 - (ws'.length + 1)),
                ws'.length + 1, 1⟩ : Seg α) = tailSegQ 1 ws' from by
            simp only [tailSegQ]
            rw [show (1 : Nat) + ws'.length = ws'.length + 1 by omega]]
      · have hch4 : ch.length = 4 := hmids ch (List.mem_cons_self ch mids')
        rcases ch with _ | ⟨a, ch'⟩
        · simp at hch4
        have hch3 : ch'.length = 3 := by simpa using hch4
        simp only [List.nil_append, List.flatten_cons, List.cons_append,
          List.append_assoc] at hm
        subst hm
        have hres : tryDequeue q
            = (.ok a, ⟨(⟨midEntries 1 ch' 0, 5, 0⟩ : Seg α) ::
                (mids'.map fullSegQ ++ [tailSegQ 0 ws]), 0⟩) := by
          simp only [tryDequeue, hsegs, headSegQ, List.map_cons,
            List.cons_append]
          rw [show fullSegQ (a :: ch')
                = (⟨⟨2, some a⟩ :: ch'.map (fun v => (⟨2, some v⟩ : QEntry α)),
                  5, 0⟩ : Seg α) from by simp [fullSegQ],
            deqFirst_skip_head q.rxPos _ _ hpos, deqLater_take]
          rw [show (⟨3, none⟩ :: ch'.map (fun v => (⟨2, some v⟩ : QEntry α))
                : List (QEntry α)) = midEntries 1 ch' 0 from by
            simp [midEntries, List.replicate_succ]]
        rw [hres]
        refine ⟨rfl, Or.inr ⟨1, ch', mids', ws, by omega, Nat.zero_le 1, hws,
          fun c2 hc2 => hmids c2 (List.mem_cons_of_mem _ hc2), ?_, rfl⟩⟩
        rfl
    · subst hm
      have hres : tryDequeue q
          = (.ok v, ⟨(⟨midEntries (c + 1) vs' 0, 5, 0⟩ : Seg α) ::
              (mids.map fullSegQ ++ [tailSegQ 0 ws]),
              if q.rxPos = c - q.rxPos then q.rxPos + 1 else q.rxPos⟩) := by
        simp only [tryDequeue, hsegs, headSegQ, List.length_cons]
        exact deqFirst_take c 0 5 0 q.rxPos v vs' _ hpos
      rw [hres]
      have h42 : (c + 1) + vs'.length = 4 := by
        simp only [List.length_cons] at h4
        omega
      refine ⟨rfl, Or.inr ⟨c + 1, vs', mids, ws, h42, ?_, hws, hmids, rfl,
        rfl⟩⟩
      dsimp only
      split <;> omega

theorem runOps_spec {α : Type} :
    ∀ (ops : List (QOp α)) (q : QState α) (m : List α),
      QInv q m → runOps q ops = specRun m ops
  | [], _, _, _ => by simp [runOps, specRun]
  | .enq x :: ops, q, m, h => by
      simp only [runOps, specRun]
      exact runOps_spec ops _ _ (enq_pres q m x h)
  | .deq :: ops, q, m, h => by
      obtain ⟨h1, h2⟩ := deq_pres q m h
      rcases m with _ | ⟨y, m2⟩
      · simp only [runOps, specRun]
        exact congrArg₂ List.cons h1 (runOps_spec ops _ _ h2)
      · simp only [runOps, specRun]
        exact congrArg₂ List.cons h1 (runOps_spec ops _ _ h2)

/-- C9: single-producer FIFO with exact emptiness.  Under the sequential
interleaving of one producer and the single consumer, every sequence of
`try_enqueue` and `try_dequeue` operations on a fresh queue produces
exactly the dequeue results of an ideal FIFO list: items come out in
enqueue order and `try_dequeue` returns `Err(Empty)` precisely when no
enqueued-but-undequeued item remains (in particular no `unwrap` or
`todo!("Cant Free")` panic is ever reached). -/
theorem C9_queue_fifo (ops : List (QOp Nat)) :
    runOps (initQ Nat) ops = specRun [] ops :=
  runOps_spec ops (initQ Nat) [] QInv_init

end Rack
